import Mathlib

/-!
Verification development for the repository content ingestion engine
(`utils/crawl_github_files.py`).  The Python source is shallowly embedded:
pure fragments become Lean functions, the HTTP layer and the local
filesystem become explicit oracles carried in an environment record, and
every return site of the crawler is mirrored by an explicit result value.
Uncaught Python exceptions are modelled by `Except.error`.
-/

set_option maxRecDepth 10000

/-! ### Shell-glob matching (model of Python `fnmatch.fnmatch` on POSIX)

`fnmatch.fnmatch(name, pattern)` translates the pattern to a regular
expression: `*` matches any (possibly empty) sequence of characters
including `/`, `?` matches exactly one character, and `[seq]` / `[!seq]`
match one character from (resp. outside) a set that may contain `a-z`
ranges.  On POSIX `os.path.normcase` is the identity, so matching is
case sensitive and applies to the whole string.

The matcher below is written with an explicit recursion-depth budget
(`fuel`) so that it is structurally recursive and kernel-evaluable; every
recursive call shrinks `pattern length + string length` by at least one
while consuming exactly one unit of fuel, so the initial budget
`pattern length + string length` can never run out. -/

/-- A compiled glob-pattern token. -/
inductive GTok where
  | star : GTok
  | qmark : GTok
  | lit : Char → GTok
  | cls : Bool → List (Char × Char) → GTok
deriving Repr, DecidableEq

/-- Scan a character-class body up to the closing `]`; returns the body and
the rest of the pattern, or `none` when the class is unterminated. -/
def splitClass : List Char → Option (List Char × List Char)
  | [] => none
  | c :: rest =>
    if c = ']' then some ([], rest)
    else
      match splitClass rest with
      | some (body, r) => some (c :: body, r)
      | none => none

/-- Interpret a class body as a list of character ranges (a lone character
`c` is the range `(c, c)`; `a-z` is the range `(a, z)`). -/
def toRanges : List Char → List (Char × Char)
  | a :: '-' :: b :: rest => (a, b) :: toRanges rest
  | a :: rest => (a, a) :: toRanges rest
  | [] => []

/-- Does a character belong to one of the ranges? -/
def inRanges (rs : List (Char × Char)) (c : Char) : Bool :=
  rs.any (fun r => r.1 ≤ c && c ≤ r.2)

/-- Compile a glob pattern to tokens, following `fnmatch.translate`: after
`[` an optional `!` negates, a first `]` is a literal member, and an
unterminated class leaves `[` as a literal character.  The fuel argument
starts at the pattern length and every call consumes strictly more than
one pattern character per fuel unit, so the `0, _ :: _` row is dead. -/
def compilePatF : Nat → List Char → List GTok
  | _, [] => []
  | 0, _ :: _ => []
  | fuel + 1, '*' :: rest => GTok.star :: compilePatF fuel rest
  | fuel + 1, '?' :: rest => GTok.qmark :: compilePatF fuel rest
  | fuel + 1, '[' :: '!' :: ']' :: rest =>
    (match splitClass rest with
     | some (body, r) => GTok.cls true (toRanges (']' :: body)) :: compilePatF fuel r
     | none => GTok.lit '[' :: compilePatF fuel ('!' :: ']' :: rest))
  | fuel + 1, '[' :: '!' :: rest =>
    (match splitClass rest with
     | some (body, r) => GTok.cls true (toRanges body) :: compilePatF fuel r
     | none => GTok.lit '[' :: compilePatF fuel ('!' :: rest))
  | fuel + 1, '[' :: ']' :: rest =>
    (match splitClass rest with
     | some (body, r) => GTok.cls false (toRanges (']' :: body)) :: compilePatF fuel r
     | none => GTok.lit '[' :: compilePatF fuel (']' :: rest))
  | fuel + 1, '[' :: rest =>
    (match splitClass rest with
     | some (body, r) => GTok.cls false (toRanges body) :: compilePatF fuel r
     | none => GTok.lit '[' :: compilePatF fuel rest)
  | fuel + 1, c :: rest => GTok.lit c :: compilePatF fuel rest

/-- Compile a glob pattern (fuel instantiated with the pattern length). -/
def compilePat (cs : List Char) : List GTok :=
  compilePatF cs.length cs

/-- Match compiled glob tokens against a character list (whole-string match,
as `fnmatch.translate` anchors the regular expression with `\Z`).  Fuel
starts at `tokens + characters`; every recursive call shrinks that sum, so
the `0, _, _` row is dead. -/
def gmatchF : Nat → List GTok → List Char → Bool
  | _, [], [] => true
  | _, [], _ :: _ => false
  | 0, _ :: _, _ => false
  | fuel + 1, GTok.star :: ps, [] => gmatchF fuel ps []
  | fuel + 1, GTok.star :: ps, c :: cs =>
    gmatchF fuel ps (c :: cs) || gmatchF fuel (GTok.star :: ps) cs
  | _ + 1, GTok.qmark :: _, [] => false
  | fuel + 1, GTok.qmark :: ps, _ :: cs => gmatchF fuel ps cs
  | _ + 1, GTok.lit _ :: _, [] => false
  | fuel + 1, GTok.lit a :: ps, c :: cs => (a = c) && gmatchF fuel ps cs
  | _ + 1, GTok.cls _ _ :: _, [] => false
  | fuel + 1, GTok.cls neg rs :: ps, c :: cs =>
    (neg != inRanges rs c) && gmatchF fuel ps cs

/-- Model of `fnmatch.fnmatch(s, pattern)` (argument order as in Python). -/
def fnmatchB (s pattern : String) : Bool :=
  gmatchF ((compilePat pattern.data).length + s.data.length) (compilePat pattern.data) s.data

example : fnmatchB "a.py" "*.py" = true := by decide
example : fnmatchB "src/a.py" "*.py" = true := by decide
example : fnmatchB "a.py" "src/*.py" = false := by decide
example : fnmatchB "ab" "a?" = true := by decide
example : fnmatchB "a" "a?" = false := by decide
example : fnmatchB "ab" "a[b-d]" = true := by decide
example : fnmatchB "ae" "a[b-d]" = false := by decide
example : fnmatchB "ae" "a[!b-d]" = true := by decide
example : fnmatchB "tests" "tests" = true := by decide
example : fnmatchB "src/tests" "tests" = false := by decide

/-! ### Kernel-evaluable string primitives

Python string operations are modelled on the character lists underlying
Lean strings, so that every concrete run can be checked by `decide`. -/

/-- Is `p` a prefix of `cs` (decidable, structural)? -/
def listIsPre : List Char → List Char → Bool
  | [], _ => true
  | _ :: _, [] => false
  | p :: ps, c :: cs => p = c && listIsPre ps cs

/-- Python `s.startswith(t)`. -/
def pyStartsWith (s t : String) : Bool := listIsPre t.data s.data

/-- Python `s.endswith(t)`. -/
def pyEndsWith (s t : String) : Bool := listIsPre t.data.reverse s.data.reverse

/-- Split off everything before and after the first occurrence of the
(nonempty) separator `sep`; `none` when `sep` does not occur. -/
def splitFirst (sep : List Char) : List Char → Option (List Char × List Char)
  | [] => none
  | c :: cs =>
    if listIsPre sep (c :: cs) then some ([], (c :: cs).drop sep.length)
    else
      match splitFirst sep cs with
      | some (pre, post) => some (c :: pre, post)
      | none => none

/-- Repeated split on a nonempty separator; fuel starts at the string
length plus one and every found separator consumes at least one character,
so it never runs out. -/
def splitOnL (sep : List Char) : Nat → List Char → List (List Char)
  | 0, cs => [cs]
  | fuel + 1, cs =>
    match splitFirst sep cs with
    | none => [cs]
    | some (pre, post) => pre :: splitOnL sep fuel post

/-- Python `s.split(t)` for nonempty `t` (Lean's convention `[s]` is used
for the empty separator, which never occurs in the crawler). -/
def pySplit (s t : String) : List String :=
  if t.data.isEmpty then [s]
  else (splitOnL t.data (s.data.length + 1) s.data).map String.mk

example : pySplit "a//b" "/" = ["a", "", "b"] := by decide
example : pySplit "" "/" = [""] := by decide
example : pySplit "owner/repo" "/" = ["owner", "repo"] := by decide

/-- Python `s[n:]` (character based). -/
def pyDrop (s : String) (n : Nat) : String := String.mk (s.data.drop n)

/-- Character count of a string. -/
def pyLen (s : String) : Nat := s.data.length

/-! ### Pattern filter (`should_include_file`, source lines 69-84)

The include test applies each include pattern to the file NAME only, and
the exclude test applies each exclude pattern to the file PATH only; the
exclude test runs only when the include test passed.  A `None` pattern set
and an empty pattern set are both falsy in Python, so both are modelled by
the empty list. -/

def shouldIncludeFile (includePatterns excludePatterns : List String)
    (filePath fileName : String) : Bool :=
  let includeFile :=
    if includePatterns.isEmpty then true
    else includePatterns.any (fun pat => fnmatchB fileName pat)
  if ¬ excludePatterns.isEmpty ∧ includeFile then
    ! excludePatterns.any (fun pat => fnmatchB filePath pat)
  else includeFile

example : shouldIncludeFile [] [] "a/b.c" "b.c" = true := by decide
example : shouldIncludeFile ["*.py"] [] "src/a.py" "a.py" = true := by decide
example : shouldIncludeFile ["src/*.py"] [] "src/a.py" "a.py" = false := by decide
example : shouldIncludeFile [] ["x.*"] "d/x.log" "x.log" = true := by decide

/-! ### Data model

`Stats` mirrors the Python stats dictionary: a field is `none` exactly when
the corresponding key is absent from the dictionary built at that return
site.  `basePath` holds `some none` when the key is present with value
`None`. -/

/-- One entry of a GitHub contents-API directory listing. -/
structure Item where
  path : String := ""
  name : String := ""
  itemType : String := ""
  size : Nat := 0
  downloadUrl : Option String := none
  url : String := ""
deriving Repr, DecidableEq

/-- Response of a `GET .../contents/{path}` request.  `badJson` models a
200 response whose body fails to parse; `netErr` models a
`requests.RequestException` raised by `session.get` (after the adapter's
own retries are exhausted).  A 403 rate-limited response is deliberately
not representable here: the walker is analysed under the assumption that
every request eventually receives a non-rate-limited response, and the
rate-limit branch of the loop body is modelled separately below. -/
inductive ContentsResp where
  | ok (items : List Item)
  | http (status : Nat)
  | badJson
  | netErr (msg : String)
deriving Repr, DecidableEq

/-- Response of a `GET download_url` request. -/
inductive DlResp where
  | ok (status : Nat) (contentLength : Nat) (text : String)
  | netErr (msg : String)
deriving Repr, DecidableEq

/-- Response of a `GET item["url"]` content-endpoint request; `encoding`
and `content` are the eponymous fields of the parsed JSON body (absent
key = `none`). -/
inductive CtResp where
  | ok (status : Nat) (encoding : Option String) (content : Option String)
  | netErr (msg : String)
deriving Repr, DecidableEq

/-- Outcome of a raw `session.get` whose response is only inspected for
its status code (`fetch_branches` line 193 and `check_tree` line 214):
the status, or a `RequestException`.  These two calls sit OUTSIDE the
`try` at line 368, so their exceptions escape `crawl_github_files`
uncaught. -/
inductive NetResp where
  | ok (status : Nat)
  | netErr (msg : String)
deriving Repr, DecidableEq

/-- Exception signal produced by the per-item body and propagated by the
walker loop: `ok` continues; `netErr` is a `RequestException` /
`MaxRetryError` / `RuntimeError`, i.e. a member of the `except` tuple at
line 386, which triggers the clone fallback; `raise` is an exception NOT
in that tuple (`binascii.Error` or `UnicodeDecodeError` from the decode at
line 355), which escapes `crawl_github_files` entirely. -/
inductive Signal where
  | ok
  | netErr (msg : String)
  | raise (msg : String)
deriving Repr, DecidableEq

/-- Response of the repository metadata request (`GET /repos/{owner}/{repo}`):
status code and the `default_branch` field of the body. -/
inductive MetaResp where
  | ok (status : Nat) (defaultBranch : Option String)
  | netErr (msg : String)
deriving Repr, DecidableEq

/-- Response of the recursive tree listing used by the pre-check: status
code and the number of `blob` entries of the `tree` array. -/
inductive TreeResp where
  | ok (status : Nat) (blobCount : Nat)
  | netErr (msg : String)
deriving Repr, DecidableEq

/-- A file met while walking a local clone: the computed relative path, the
basename, `os.path.getsize` (`none` = `OSError`) and the file text
(`none` = read failure). -/
structure LocalFile where
  relPath : String := ""
  name : String := ""
  size : Option Nat := none
  content : Option String := none
deriving Repr, DecidableEq

/-- An HTTP request issued through the session, as observed for the trace:
URL and the header list passed to `session.get`. -/
structure Req where
  url : String
  headers : List (String × String)
deriving Repr, DecidableEq

/-- The environment: every external effect the crawler touches, made
explicit.  HTTP endpoints are deterministic oracles keyed by path or URL;
the branches-list and tree-check requests can end in a `RequestException`
(they are issued outside the `try` at line 368, so that exception escapes
the function); `b64decode` abstracts `base64.b64decode(...).decode("utf-8")`
at line 355 and is fallible — `.error` is a `binascii.Error` or
`UnicodeDecodeError`, neither of which is caught by the `except` tuple at
line 386; clone outcomes package the gitpython calls together with the
subsequent `os.walk` enumeration. -/
structure Env where
  sessionToken : Option String := none
  gitAvailable : Bool := true
  sshClone : Except String (List LocalFile) := .error "clone error"
  branchesResp : NetResp := .ok 200
  branchesNames : List (Option String) := []
  checkTreeResp : String → NetResp := fun _ => .ok 404
  meta : MetaResp := .ok 200 none
  tree : TreeResp := .ok 200 0
  contents : String → ContentsResp := fun _ => .http 404
  download : String → DlResp := fun _ => .netErr "no oracle"
  contentGet : String → CtResp := fun _ => .netErr "no oracle"
  b64decode : String → Except String String := fun _ => .error "binascii.Error"
  cloneFallback : Except String (List LocalFile) := .error "clone error"

/-- The stats dictionary of a crawl result (field = key, `none` = absent). -/
structure Stats where
  error : Option String := none
  source : Option String := none
  downloadedCount : Option Nat := none
  skippedCount : Option Nat := none
  skippedFiles : Option (List (String × Nat)) := none
  basePath : Option (Option String) := none
  includePatterns : Option (List String) := none
  excludePatterns : Option (List String) := none
deriving Repr, DecidableEq

/-- The dictionary returned by `crawl_github_files`. -/
structure FetchResult where
  files : List (String × String)
  stats : Stats
deriving Repr, DecidableEq

/-- Walker state plus the observation trace: `files`/`skipped` are the
crawl's own accumulators; `visited` records each directory GET issued by
the tree walker together with its depth; `pushed` records every stack push
as (parent item, pushed item); `reqs` records every HTTP request; `pops`
counts loop iterations. -/
structure St where
  files : List (String × String) := []
  skipped : List (String × Nat) := []
  visited : List (String × Nat) := []
  pushed : List ((String × Nat) × (String × Nat)) := []
  reqs : List Req := []
  pops : Nat := 0
deriving Repr, DecidableEq

instance {ε α : Type} [DecidableEq ε] [DecidableEq α] :
    DecidableEq (Except ε α) := fun a b =>
  match a, b with
  | .error x, .error y =>
    if h : x = y then .isTrue (by rw [h]) else
      .isFalse (by intro hc; cases hc; exact h rfl)
  | .ok x, .ok y =>
    if h : x = y then .isTrue (by rw [h]) else
      .isFalse (by intro hc; cases hc; exact h rfl)
  | .error _, .ok _ => .isFalse (by intro hc; cases hc)
  | .ok _, .error _ => .isFalse (by intro hc; cases hc)

/-- Result of one full call: the returned dictionary, or `Except.error`
when an exception escapes the function; plus the final trace. -/
structure CrawlOut where
  result : Except String FetchResult
  trace : St := {}
deriving Repr, DecidableEq

/-! ### URL handling (source lines 86-167) -/

/-- Python's `t in s` substring test. -/
def containsSub (s t : String) : Bool := (pySplit s t).length != 1

/-- Lines 87-93: rewrite an `api.github.com/repos/...` URL to web form;
`parts[1]` is the piece after the first occurrence of the separator. -/
def normalizeRepoUrl (url : String) : String :=
  if containsSub url "api.github.com" then
    match pySplit url "api.github.com/repos/" with
    | _ :: repoPath :: _ => "https://github.com/" ++ repoPath
    | _ => url
  else url

/-- Line 96: SSH-style source detection. -/
def isSshUrl (url : String) : Bool :=
  pyStartsWith url "git@" || pyEndsWith url ".git"

/-- The `path` component of `urllib.parse.urlparse`: for `scheme://netloc/p`
URLs this is `/p`; a string without `://` is all path. -/
def urlPath (url : String) : String :=
  match pySplit url "://" with
  | [_] => url
  | _ :: rest =>
    match pySplit ("://".intercalate rest) "/" with
    | [] => ""
    | _ :: [] => ""
    | _ :: ps => "/" ++ "/".intercalate ps
  | [] => ""

/-- Python `str.strip('/')`. -/
def stripSlashes (s : String) : String :=
  String.mk (((s.data.dropWhile (· = '/')).reverse.dropWhile (· = '/')).reverse)

/-- Lines 159-160: `parsed_url.path.strip('/').split('/')`. -/
def pathParts (url : String) : List String :=
  pySplit (stripSlashes (urlPath url)) "/"

example : pathParts "https://github.com/acme/demo" = ["acme", "demo"] := by decide
example : pathParts "https://github.com/foo" = ["foo"] := by decide
example : pathParts "https://github.com" = [""] := by decide
example : pathParts "https://github.com/a/b/tree/main/src" =
    ["a", "b", "tree", "main", "src"] := by decide

/-- Python truthiness of an optional string (`None` and `""` are falsy). -/
def strTruthy : Option String → Bool
  | none => false
  | some s => !(s == "")

/-- Lines 59-61: the explicit token argument, else the session store. -/
def effectiveToken (token : Option String) (sessionToken : Option String) :
    Option String :=
  if strTruthy token then token else sessionToken

/-- Lines 170-175: request headers; the Authorization header is added only
when a (truthy) token is available. -/
def baseHeaders (token : Option String) : List (String × String) :=
  [("Accept", "application/vnd.github.v3+json")] ++
    (if strTruthy token then [("Authorization", "token " ++ token.getD "")] else [])

/-! ### Retry controller configuration (source lines 178-187) -/

def retryTotal : Nat := 5
def retryBackoffFactor : Nat := 1
def retryStatusForcelist : List Nat := [429, 500, 502, 503, 504]
def retryAllowedMethods : List String := ["HEAD", "GET", "OPTIONS"]

/-! ### Ref resolution (source lines 189-257) -/

/-- `'/'.join(path_parts[i:])`. -/
def joinParts (parts : List String) (i : Nat) : String :=
  "/".intercalate (parts.drop i)

/-- Lines 232-237: scan the branch names in listing order and take the
FIRST whose name is a string prefix of the remaining path (the loop
breaks on the first hit). -/
def selectBranch (branchNames : List String) (relevantPath : String) :
    Option String :=
  branchNames.find? (fun name => pyStartsWith relevantPath name)

/-- Modelled from the spec's words, for comparison with `selectBranch`
(refinement check only): "find the longest branch name that is a prefix of
the remaining path". -/
def selectBranchSpec (branchNames : List String) (relevantPath : String) :
    Option String :=
  (branchNames.filter (fun name => pyStartsWith relevantPath name)).foldl
    (fun acc name =>
      match acc with
      | none => some name
      | some m => if pyLen m < pyLen name then some name else some m)
    none

/-- Lines 251-252: the path after the ref starts at part 5 when the ref
contains a slash, else at part 4. -/
def specificOf (parts : List String) (ref : String) : String :=
  let partIndex := if ref.data.contains '/' then 5 else 4
  if partIndex < parts.length then joinParts parts partIndex else ""

/-- Outcome of the branch/tree resolution preceding the walk. -/
inductive ResolveOut where
  | ret (r : FetchResult)
  | raiseErr (msg : String)
  | go (ref : Option String) (specificPath : String)
deriving Repr, DecidableEq

def branchesUrl (owner repo : String) : String :=
  "https://api.github.com/repos/" ++ owner ++ "/" ++ repo ++ "/branches"

def treeCheckUrl (owner repo tree : String) : String :=
  "https://api.github.com/repos/" ++ owner ++ "/" ++ repo ++ "/git/trees/" ++ tree

/-- Lines 218-257: when the URL carries a `tree/...` segment, fetch the
branch list (lines 189-208: any non-200 status yields `[]`; the
`session.get` at line 193 is outside every `try`, so a `RequestException`
there escapes the function — `.raiseErr`), fail structurally when it is
empty, pick the first prefix-matching branch name, otherwise probe
`path_parts[3]` as a tree SHA (an out-of-range index at this point is an
uncaught Python `IndexError`, and a network failure of the probe's
`session.get` at line 214 likewise escapes), and fail structurally when
neither matches. -/
def resolveRefStage (env : Env) (headers : List (String × String))
    (owner repo : String) (parts : List String) : ResolveOut × List Req :=
  if 2 < parts.length ∧ parts.getD 2 "" = "tree" then
    let reqs1 : List Req := [⟨branchesUrl owner repo, headers⟩]
    match env.branchesResp with
    | .netErr msg => (.raiseErr msg, reqs1)
    | .ok bstatus =>
      let branches := if bstatus = 200 then env.branchesNames else []
      let branchNames := branches.filterMap id
      if branches.isEmpty then
        (.ret ⟨[], { error := some "Failed to fetch branches" }⟩, reqs1)
      else
        let relevantPath := joinParts parts 3
        match selectBranch branchNames relevantPath with
        | some name => (.go (some name) (specificOf parts name), reqs1)
        | none =>
          match parts.get? 3 with
          | none => (.raiseErr "IndexError: list index out of range", reqs1)
          | some tree =>
            let reqs2 := reqs1 ++ [⟨treeCheckUrl owner repo tree, headers⟩]
            match env.checkTreeResp tree with
            | .netErr msg => (.raiseErr msg, reqs2)
            | .ok tstatus =>
              if tstatus = 200 then
                (.go (some tree) (specificOf parts tree), reqs2)
              else
                (.ret ⟨[], { error := some "Invalid path in repository" }⟩, reqs2)
  else
    (.go none "", [])

/-! ### The iterative tree walker (`fetch_contents`, source lines 263-365) -/

/-- Crawl-call context threaded through the walker. -/
structure Ctx where
  owner : String := "o"
  repo : String := "r"
  ref : Option String := none
  specificPath : String := ""
  useRelativePaths : Bool := false
  includePatterns : List String := []
  excludePatterns : List String := []
  maxFileSize : Nat := 1048576
  headers : List (String × String) := []
  env : Env := {}

/-- Line 20. -/
def MAX_TRAVERSAL_DEPTH : Nat := 50

def contentsUrl (ctx : Ctx) (path : String) : String :=
  "https://api.github.com/repos/" ++ ctx.owner ++ "/" ++ ctx.repo ++
    "/contents/" ++ path

/-- Record one `session.get` in the trace. -/
def logReq (st : St) (url : String) (headers : List (String × String)) : St :=
  { st with reqs := st.reqs ++ [⟨url, headers⟩] }

/-- Lines 313-320: relative-path computation for a listed item. -/
def relPathOf (ctx : Ctx) (itemPath : String) : String :=
  if ctx.useRelativePaths = true ∧ ctx.specificPath ≠ "" then
    if pyStartsWith itemPath ctx.specificPath then
      String.mk ((itemPath.data.drop (pyLen ctx.specificPath)).dropWhile (· = '/'))
    else itemPath
  else itemPath

/-- Python dict assignment `d[k] = v`: replace in place or append. -/
def dictSet (m : List (String × String)) (k v : String) :
    List (String × String) :=
  match m with
  | [] => [(k, v)]
  | (k', v') :: rest =>
    if k' = k then (k, v) :: rest else (k', v') :: dictSet rest k v

/-- Lines 308-360, the file half of the per-item loop body: pattern check,
listed-size check, then either the `download_url` route (live
content-length check before the status check) or the content-endpoint
route (estimated decoded size `len * 0.75` against the limit; the float
product is exact for every representable length, so it is modelled as the
rational comparison `3*len > 4*max` with estimated size `3*len/4`; the
decode at line 355 happens ONLY when that check passes, and its failure is
an exception outside the tuple at line 386, so it escapes the whole
function — `Signal.raise`).  Returns the new state and a `Signal`: a
network exception (`Signal.netErr`) propagates out of `fetch_contents`
into the fallback handler. -/
def processFile (ctx : Ctx) (st : St) (it : Item) : St × Signal :=
  if it.path = "" then (st, .ok)
  else if it.itemType = "file" then
    let rel := relPathOf ctx it.path
    if shouldIncludeFile ctx.includePatterns ctx.excludePatterns rel it.name = false then
      (st, .ok)
    else if ctx.maxFileSize < it.size then
      ({ st with skipped := st.skipped ++ [(it.path, it.size)] }, .ok)
    else
      match it.downloadUrl with
      | some durl =>
        let st1 := logReq st durl ctx.headers
        (match ctx.env.download durl with
         | .netErr msg => (st1, .netErr msg)
         | .ok status contentLength text =>
           if ctx.maxFileSize < contentLength then
             ({ st1 with skipped := st1.skipped ++ [(it.path, contentLength)] }, .ok)
           else if status = 200 then
             ({ st1 with files := dictSet st1.files rel text }, .ok)
           else (st1, .ok))
      | none =>
        let st1 := logReq st it.url ctx.headers
        (match ctx.env.contentGet it.url with
         | .netErr msg => (st1, .netErr msg)
         | .ok status encoding content =>
           if status = 200 then
             match encoding, content with
             | some "base64", some c =>
               if 4 * ctx.maxFileSize < 3 * pyLen c then
                 ({ st1 with skipped := st1.skipped ++ [(it.path, 3 * pyLen c / 4)] }, .ok)
               else
                 match ctx.env.b64decode c with
                 | .ok decoded =>
                   ({ st1 with files := dictSet st1.files rel decoded }, .ok)
                 | .error msg => (st1, .raise msg)
             | _, _ => (st1, .ok)
           else (st1, .ok))
  else (st, .ok)

/-- Fold `processFile` over a listing; any exception breaks the Python
for-loop, so processing stops at the first non-`ok` item. -/
def processFiles (ctx : Ctx) (st : St) : List Item → St × Signal
  | [] => (st, .ok)
  | it :: rest =>
    let r := processFile ctx st it
    match r.2 with
    | .ok => processFiles ctx r.1 rest
    | .netErr msg => (r.1, .netErr msg)
    | .raise msg => (r.1, .raise msg)

/-- Lines 361-364: a directory entry is dropped when exclude patterns
exist and one of them matches its full path. -/
def dirExcluded (ctx : Ctx) (path : String) : Bool :=
  !ctx.excludePatterns.isEmpty &&
    ctx.excludePatterns.any (fun pat => fnmatchB path pat)

/-- The directory paths a listing pushes (line 365), in listing order. -/
def pushList (ctx : Ctx) (items : List Item) : List String :=
  items.filterMap (fun it =>
    if it.path = "" then none
    else if it.itemType = "dir" ∧ dirExcluded ctx it.path = false then some it.path
    else none)

def itemsOf : ContentsResp → List Item
  | .ok items => items
  | _ => []

/-- Cost of one stack entry under a remaining depth budget: an upper bound
on the number of loop iterations the entry can still cause.  Budget `0`
(depth beyond the bound) costs the single skipping iteration. -/
def entryCost (ctx : Ctx) : Nat → String → Nat
  | 0, _ => 1
  | b + 1, p =>
    1 + ((pushList ctx (itemsOf (ctx.env.contents p))).map
          (fun q => entryCost ctx b q)).sum

/-- Total cost of a stack: the termination measure of the walker loop. -/
def stackCost (ctx : Ctx) (stack : List (String × Nat)) : Nat :=
  (stack.map (fun x => entryCost ctx (MAX_TRAVERSAL_DEPTH + 1 - x.2) x.1)).sum

/-- Lines 263-365, the iterative walker: pop `(path, depth)`; skip when the
depth exceeds `MAX_TRAVERSAL_DEPTH`; issue the contents GET (with the ref
as query parameter, not part of the logged URL); on 404/other
errors/parse failure continue with the rest of the stack; on success run
the per-item body and push the surviving subdirectories at `depth + 1` (a
Python `list.append`/`pop` pair makes the list a LIFO stack, so pushing in
listing order means the last-listed directory is popped first; the head of
the Lean list is the top).

The loop is written with an explicit iteration budget so that it is
structurally recursive and kernel-evaluable; `fuelOut` marks a run that
exhausted the budget, and the termination theorem below proves that the
budget `stackCost` never runs out, i.e. the Python `while stack:` loop
terminates within `stackCost` iterations. -/
structure LoopOut where
  st : St
  sig : Signal := .ok
  fuelOut : Bool := false
deriving Repr, DecidableEq

/-- One iteration of the loop body (under the non-rate-limited-response
assumption): either the run stops on an exception (`netErr` caught by the
fallback handler, `raise` escaping the function), or it yields the
successor state together with the directories to push. -/
inductive IterOut where
  | stop (st : St) (sig : Signal)
  | next (st : St) (pushes : List (String × Nat))
deriving Repr, DecidableEq

/-- The state carried by an iteration outcome. -/
def iterSt : IterOut → St
  | .stop st _ => st
  | .next st _ => st

def loopIterNR (ctx : Ctx) (p : String) (d : Nat) (st : St) : IterOut :=
  if MAX_TRAVERSAL_DEPTH < d then
    .next { st with pops := st.pops + 1 } []
  else
    let stp := { st with pops := st.pops + 1, visited := st.visited ++ [(p, d)] }
    let st1 := logReq stp (contentsUrl ctx p) ctx.headers
    match ctx.env.contents p with
    | .netErr msg => .stop st1 (.netErr msg)
    | .http _ => .next st1 []
    | .badJson => .next st1 []
    | .ok items =>
      let pf := processFiles ctx st1 items
      match pf.2 with
      | .ok =>
        let ps := pushList ctx items
        .next { pf.1 with pushed := pf.1.pushed ++ ps.map (fun q => ((p, d), (q, d + 1))) }
          (ps.map (fun q => (q, d + 1)))
      | .netErr msg => .stop pf.1 (.netErr msg)
      | .raise msg => .stop pf.1 (.raise msg)

def fetchLoopF (ctx : Ctx) : Nat → List (String × Nat) → St → LoopOut
  | _, [], st => ⟨st, .ok, false⟩
  | 0, _ :: _, st => ⟨st, .ok, true⟩
  | fuel + 1, (p, d) :: rest, st =>
    match loopIterNR ctx p d st with
    | .stop st1 sig => ⟨st1, sig, false⟩
    | .next st1 pushes => fetchLoopF ctx fuel (pushes.reverse ++ rest) st1

/-- `fetch_contents(specific_path)` with the walker seeded by
`[(path, 0)]` (line 265) and the iteration budget `stackCost`. -/
def fetchContents (ctx : Ctx) (st : St) : LoopOut :=
  fetchLoopF ctx (stackCost ctx [(ctx.specificPath, 0)]) [(ctx.specificPath, 0)] st

/-! ### SSH clone path (source lines 98-156) and clone fallback walk
(source lines 386-434) -/

/-- One file of the SSH-clone walk (lines 115-143): size first (an
`OSError` skips silently), oversize recorded, then the pattern filter,
then the read (a read failure skips silently). -/
def sshWalkFile (maxFileSize : Nat) (inc exc : List String)
    (acc : List (String × String) × List (String × Nat)) (f : LocalFile) :
    List (String × String) × List (String × Nat) :=
  match f.size with
  | none => acc
  | some size =>
    if maxFileSize < size then (acc.1, acc.2 ++ [(f.relPath, size)])
    else if shouldIncludeFile inc exc f.relPath f.name = false then acc
    else
      match f.content with
      | some text => (dictSet acc.1 f.relPath text, acc.2)
      | none => acc

def sshWalk (maxFileSize : Nat) (inc exc : List String) (fs : List LocalFile) :
    List (String × String) × List (String × Nat) :=
  fs.foldl (sshWalkFile maxFileSize inc exc) ([], [])

/-- One file of the clone-fallback walk (lines 416-434): pattern filter
first, then size (`OSError` skips silently), oversize recorded, then the
read. -/
def cloneWalkFile (maxFileSize : Nat) (inc exc : List String)
    (acc : List (String × String) × List (String × Nat)) (f : LocalFile) :
    List (String × String) × List (String × Nat) :=
  if shouldIncludeFile inc exc f.relPath f.name = false then acc
  else
    match f.size with
    | none => acc
    | some size =>
      if maxFileSize < size then (acc.1, acc.2 ++ [(f.relPath, size)])
      else
        match f.content with
        | some text => (dictSet acc.1 f.relPath text, acc.2)
        | none => acc

def cloneWalk (maxFileSize : Nat) (inc exc : List String) (fs : List LocalFile) :
    List (String × String) × List (String × Nat) :=
  fs.foldl (cloneWalkFile maxFileSize inc exc) ([], [])

/-- The fully-populated stats dictionary built at the successful return
sites (lines 145-156 and 436-447). -/
def fullStats (source : String) (files : List (String × String))
    (skipped : List (String × Nat)) (basePath : Option String)
    (inc exc : List String) : Stats :=
  { downloadedCount := some files.length,
    skippedCount := some skipped.length,
    skippedFiles := some skipped,
    basePath := some basePath,
    includePatterns := some inc,
    excludePatterns := some exc,
    source := some source }

/-- Lines 98-156: the SSH clone path.  Note that the two failure returns
build a stats dictionary holding ONLY the `error` key. -/
def sshPath (env : Env) (maxFileSize : Nat) (inc exc : List String) : CrawlOut :=
  if env.gitAvailable = false then
    ⟨.ok ⟨[], { error := some "GitPython not installed. Cannot clone SSH URLs." }⟩, {}⟩
  else
    match env.sshClone with
    | .error e => ⟨.ok ⟨[], { error := some e }⟩, {}⟩
    | .ok lfs =>
      let fs := sshWalk maxFileSize inc exc lfs
      ⟨.ok ⟨fs.1, fullStats "ssh_clone" fs.1 fs.2 none inc exc⟩, {}⟩

def metaUrl (owner repo : String) : String :=
  "https://api.github.com/repos/" ++ owner ++ "/" ++ repo

def recTreeUrl (owner repo branch : String) : String :=
  metaUrl owner repo ++ "/git/trees/" ++ branch ++ "?recursive=1"

/-- Lines 386-434: the clone fallback after an API failure.  Without
GitPython the partially gathered `files` are returned with source
`api_partial` (line 391); a clone/pull failure returns them with source
`git_clone` (line 408); a successful clone clears the accumulators and
re-walks the local tree. -/
def fallbackStage (env : Env) (specificPath : String) (useRel : Bool)
    (maxFileSize : Nat) (inc exc : List String) (st : St) : CrawlOut :=
  if env.gitAvailable = false then
    ⟨.ok ⟨st.files,
      { error := some "API crawling failed and GitPython not available for fallback",
        source := some "api_partial" }⟩, st⟩
  else
    match env.cloneFallback with
    | .error e =>
      ⟨.ok ⟨st.files, { error := some e, source := some "git_clone" }⟩, st⟩
    | .ok lfs =>
      let fs := cloneWalk maxFileSize inc exc lfs
      let st2 := { st with files := fs.1, skipped := fs.2 }
      ⟨.ok ⟨fs.1,
        fullStats "git_clone" fs.1 fs.2
          (if useRel then some specificPath else none) inc exc⟩, st2⟩

/-- Lines 384-385 and 436-447: run the walker from `specific_path`; a
network exception (a member of the `except` tuple at line 386) escalates
to the fallback; an exception outside that tuple — the decode errors of
line 355 — propagates out of `crawl_github_files`; otherwise the result is
aggregated with source `api`. -/
def runFetch (ctx : Ctx) (st : St) : CrawlOut :=
  let out := fetchContents ctx st
  match out.sig with
  | .raise msg => ⟨.error msg, out.st⟩
  | .netErr _ =>
    fallbackStage ctx.env ctx.specificPath ctx.useRelativePaths ctx.maxFileSize
      ctx.includePatterns ctx.excludePatterns out.st
  | .ok =>
    ⟨.ok ⟨out.st.files,
      fullStats "api" out.st.files out.st.skipped
        (if ctx.useRelativePaths then some ctx.specificPath else none)
        ctx.includePatterns ctx.excludePatterns⟩, out.st⟩

/-- Lines 367-447: the pre-check (lines 369-383) — NOTE that the metadata
request at line 371 is issued WITHOUT the `headers` argument, hence with
an empty header list — followed by the walk or the fallback. -/
def apiStage (env : Env) (headers : List (String × String)) (owner repo : String)
    (ref : Option String) (specificPath : String) (useRel : Bool)
    (maxFileSize : Nat) (inc exc : List String) (st0 : St) : CrawlOut :=
  let ctx : Ctx :=
    { owner := owner, repo := repo, ref := ref, specificPath := specificPath,
      useRelativePaths := useRel, includePatterns := inc, excludePatterns := exc,
      maxFileSize := maxFileSize, headers := headers, env := env }
  let st1 := logReq st0 (metaUrl owner repo) []
  match env.meta with
  | .netErr _ => fallbackStage env specificPath useRel maxFileSize inc exc st1
  | .ok status defaultBranch =>
    let db := if status = 200 then defaultBranch else none
    if strTruthy db then
      let st2 := logReq st1 (recTreeUrl owner repo (db.getD "")) headers
      match env.tree with
      | .netErr _ => fallbackStage env specificPath useRel maxFileSize inc exc st2
      | .ok tstatus blobCount =>
        if tstatus = 200 ∧ 1000 < blobCount then
          fallbackStage env specificPath useRel maxFileSize inc exc st2
        else runFetch ctx st2
    else runFetch ctx st1

/-- The whole of `crawl_github_files` (lines 31-447), with the pattern
arguments already in normalised set form (lines 63-67 merely coerce a
single string to a one-element set). -/
def crawl (env : Env) (repoUrl : String) (token : Option String)
    (maxFileSize : Nat) (useRel : Bool) (inc exc : List String) : CrawlOut :=
  let t0 := effectiveToken token env.sessionToken
  let url1 := normalizeRepoUrl repoUrl
  if isSshUrl url1 then sshPath env maxFileSize inc exc
  else
    let parts := pathParts url1
    if parts.length < 2 then ⟨.error ("Invalid GitHub URL: " ++ url1), {}⟩
    else
      let owner := parts.getD 0 ""
      let repo := parts.getD 1 ""
      let headers := baseHeaders t0
      match resolveRefStage env headers owner repo parts with
      | (.ret r, rs) => ⟨.ok r, { reqs := rs }⟩
      | (.raiseErr m, rs) => ⟨.error m, { reqs := rs }⟩
      | (.go ref specificPath, rs) =>
        apiStage env headers owner repo ref specificPath useRel maxFileSize
          inc exc { reqs := rs }

/-! ### The rate-limit branch of the loop body (source lines 275-282)

The walker model above assumes non-rate-limited responses (the premise of
the depth-bound property); the 403 branch is embedded separately as the
transformation it performs on the wait clock and the stack. -/

/-- Python `s.lower()`. -/
def pyLower (s : String) : String := String.mk (s.data.map Char.toLower)

/-- A raw HTTP response as inspected by the rate-limit branch: status,
body text, and the `X-RateLimit-Reset` header (absent = `none`; the code
defaults it to `0`). -/
structure HttpResp where
  status : Nat := 200
  text : String := ""
  rateLimitReset : Option Int := none
deriving Repr, DecidableEq

/-- Line 276: `status == 403 and 'rate limit exceeded' in text.lower()`. -/
def isRateLimited (r : HttpResp) : Bool :=
  r.status == 403 && containsSub (pyLower r.text) "rate limit exceeded"

/-- Lines 277-282: the wait `max(reset - now, 0) + 1` and the re-push of
the same `(path, depth)` pair onto the stack. -/
def handleRateLimit (now : Int) (resetHeader : Option Int) (p : String)
    (d : Nat) (stack : List (String × Nat)) : Int × List (String × Nat) :=
  (max (resetHeader.getD 0 - now) 0 + 1, (p, d) :: stack)

/-- One guarded iteration of the loop body restricted to the rate-limit
check: on a rate-limited response it sleeps and re-pushes, otherwise it
leaves the stack for the remaining handlers. -/
def loopBodyRL (now : Int) (r : HttpResp) (p : String) (d : Nat)
    (stack : List (String × Nat)) : Option Int × List (String × Nat) :=
  if isRateLimited r then
    let hw := handleRateLimit now r.rateLimitReset p d stack
    (some hw.1, hw.2)
  else (none, stack)

/-! ### Path relations used by the pruning property -/

/-- `underEq x anc`: `x` is `anc` itself or lies strictly beneath it
(i.e. `anc ++ "/"` is a prefix of `x`). -/
def underEq (x anc : String) : Bool :=
  x == anc || listIsPre (anc ++ "/").data x.data

/-- A listing item is a direct child of the requested directory: its path
extends the directory path by exactly one slash-free component (for the
repository root the path is the bare name).  This is the shape of every
well-formed GitHub contents response. -/
def childOf (it : Item) (p : String) : Prop :=
  it.path = (if p = "" then it.name else p ++ "/" ++ it.name) ∧ '/' ∉ it.name.data

/-! ### Concrete environments and inputs used by the witnesses and
counterexamples -/

/-- A small healthy repository served entirely over the API. -/
def envHappy : Env :=
  { meta := .ok 200 (some "main"), tree := .ok 200 3,
    contents := fun p =>
      if p = "" then
        .ok [{ path := "a.py", name := "a.py", itemType := "file", size := 10,
               downloadUrl := some "https://raw.test/a.py" }]
      else .http 404,
    download := fun _ => .ok 200 10 "print(1)" }

/-- The result of the happy crawl of `envHappy`. -/
def happyResult : FetchResult :=
  ⟨[("a.py", "print(1)")],
    fullStats "api" [("a.py", "print(1)")] [] none [] []⟩

/-- A repository whose root holds one small text file (used to show that a
pattern-excluded file is recorded nowhere). -/
def envC3 : Env :=
  { meta := .ok 200 (some "main"), tree := .ok 200 1,
    contents := fun p =>
      if p = "" then
        .ok [{ path := "notes.txt", name := "notes.txt", itemType := "file",
               size := 5, downloadUrl := some "https://raw.test/notes.txt" }]
      else .http 404,
    download := fun _ => .ok 200 5 "hello" }

/-- Stats dictionary of the failing SSH return (line 100): only `error`. -/
def resC2 : FetchResult :=
  ⟨[], { error := some "GitPython not installed. Cannot clone SSH URLs." }⟩

/-- Result of an API failure without GitPython (line 391). -/
def resC2partial : FetchResult :=
  ⟨[], { error := some "API crawling failed and GitPython not available for fallback",
         source := some "api_partial" }⟩

/-- Environment whose metadata request raises and without GitPython. -/
def envPartial : Env := { gitAvailable := false, meta := .netErr "boom" }

/-- Environment for the resolver counterexample: the branch listing holds
a short name before a longer one. -/
def envC7 : Env :=
  { branchesNames := [some "release", some "release/2.0"] }

/-- A listing item without `download_url`, fetched via the content
endpoint. -/
def itemC9 : Item :=
  { path := "f.txt", name := "f.txt", itemType := "file", size := 0, url := "u" }

/-- 104 'A's: VALID base64 (a multiple of four alphabet characters), so
the decode at line 355 succeeds on it. -/
def encodedC9 : String := String.mk (List.replicate 104 'A')

/-- `base64.b64decode('A' * 104).decode('utf-8')`: 78 NUL characters (a
valid UTF-8 string). -/
def decodedC9 : String := String.mk (List.replicate 78 (Char.ofNat 0))

/-- Environment serving `encodedC9` from the content endpoint; the decode
oracle returns the real decode of that one valid input and a
`binascii.Error` for everything else. -/
def envC9 : Env :=
  { contentGet := fun _ => .ok 200 (some "base64") (some encodedC9),
    b64decode := fun s =>
      if s = encodedC9 then .ok decodedC9
      else .error "binascii.Error: Invalid base64-encoded string" }

def ctxC9 : Ctx := { maxFileSize := 100, env := envC9 }

/-- Environment for the pruning witness: a root with two directories. -/
def envC8 : Env :=
  { contents := fun p =>
      if p = "" then
        .ok [{ path := "docs", name := "docs", itemType := "dir" },
             { path := "src", name := "src", itemType := "dir" }]
      else if p = "src" then
        .ok [{ path := "src/a.py", name := "a.py", itemType := "file", size := 4,
               downloadUrl := some "https://raw.test/src/a.py" }]
      else if p = "docs" then
        .ok [{ path := "docs/b.py", name := "b.py", itemType := "file", size := 4,
               downloadUrl := some "https://raw.test/docs/b.py" }]
      else .http 404,
    download := fun _ => .ok 200 4 "pass" }

/-- Walker context for the pruning witness: `docs` is excluded. -/
def ctxC8 : Ctx :=
  { excludePatterns := ["docs"], env := envC8 }

/-- An oversize listing item (2000 bytes against a 1000-byte limit). -/
def itemOversize : Item :=
  { path := "big.bin", name := "big.bin", itemType := "file", size := 2000,
    downloadUrl := some "https://raw.test/big.bin" }

/-- Context with a 1000-byte limit. -/
def ctxOversize : Ctx := { maxFileSize := 1000 }

/-- Context with a 10-byte limit for the estimated-size skip case. -/
def ctxC9small : Ctx := { maxFileSize := 10, env := envC9 }

/-- A pathological self-listing directory: `a` lists itself. -/
def envCyclic : Env :=
  { contents := fun _ => .ok [{ path := "a", name := "a", itemType := "dir" }] }

/-- Walker context over the cyclic environment. -/
def ctxCyclic : Ctx := { env := envCyclic, specificPath := "a" }

/-! ## Theorems -/

/-! ### Helper lemmas -/

theorem shouldIncludeFile_iff (inc exc : List String) (path name : String) :
    shouldIncludeFile inc exc path name = true ↔
      ((inc = [] ∨ ∃ pat ∈ inc, fnmatchB name pat = true) ∧
        ∀ pat ∈ exc, fnmatchB path pat = false) := by
  unfold shouldIncludeFile
  by_cases h1 : inc.isEmpty <;> by_cases h2 : exc.isEmpty <;>
    by_cases h3 : inc.any (fun pat => fnmatchB name pat) <;>
    by_cases h4 : exc.any (fun pat => fnmatchB path pat) <;>
    simp_all [List.isEmpty_iff, List.any_eq_true, List.eq_nil_iff_forall_not_mem]

theorem find_eq_head_filter {α : Type} (p : α → Bool) (l : List α) :
    l.find? p = (l.filter p).head? := by
  induction l with
  | nil => rfl
  | cons a t ih =>
    by_cases h : p a
    · rw [List.find?_cons, List.filter_cons, h]
      rfl
    · simp only [Bool.not_eq_true] at h
      rw [List.find?_cons, List.filter_cons, h]
      exact ih

/-! ### C4 — pattern filter semantics -/

/-- C4 (corrected): the filter includes a file iff there are no include
patterns or some include pattern matches the BASENAME (only), and no
exclude pattern matches the FULL RELATIVE PATH (only); exclude wins over
include.  The claim's "each set is matched against both strings" is
refuted by the counterexample below. -/
theorem claim_C4_amended (inc exc : List String) (path name : String) :
    shouldIncludeFile inc exc path name = true ↔
      ((inc = [] ∨ ∃ pat ∈ inc, fnmatchB name pat = true) ∧
        ∀ pat ∈ exc, fnmatchB path pat = false) :=
  shouldIncludeFile_iff inc exc path name

/-- C4 counterexample: an include pattern that matches only the full path
does NOT include the file, and an exclude pattern that matches only the
basename does NOT exclude it — matching is not applied to both strings. -/
theorem claim_C4_counterexample :
    shouldIncludeFile ["src/*.py"] [] "src/a.py" "a.py" = false
    ∧ fnmatchB "src/a.py" "src/*.py" = true
    ∧ shouldIncludeFile [] ["x.*"] "d/x.log" "x.log" = true
    ∧ fnmatchB "x.log" "x.*" = true := by decide

/-! ### C7 — ref resolution -/

/-- C7 (corrected): the resolver picks the FIRST branch name in listing
order whose name is a prefix of the remaining path (not the longest); only
when none matches does it probe `path_parts[3]` as a tree SHA, and when
that probe also fails it returns the structured "Invalid path in
repository" result (no exception). -/
theorem claim_C7_amended :
    (∀ (names : List String) (rel : String),
      selectBranch names rel
        = (names.filter (fun n => pyStartsWith rel n)).head?)
    ∧ (∀ (env : Env) (headers : List (String × String)) (owner repo : String)
        (parts : List String) (tree : String),
        2 < parts.length → parts.getD 2 "" = "tree" →
        env.branchesResp = .ok 200 → env.branchesNames ≠ [] →
        selectBranch (env.branchesNames.filterMap id) (joinParts parts 3) = none →
        parts.get? 3 = some tree →
        env.checkTreeResp tree = .ok 200 →
        (resolveRefStage env headers owner repo parts).1
          = .go (some tree) (specificOf parts tree))
    ∧ (∀ (env : Env) (headers : List (String × String)) (owner repo : String)
        (parts : List String) (tree : String) (ts : Nat),
        2 < parts.length → parts.getD 2 "" = "tree" →
        env.branchesResp = .ok 200 → env.branchesNames ≠ [] →
        selectBranch (env.branchesNames.filterMap id) (joinParts parts 3) = none →
        parts.get? 3 = some tree →
        env.checkTreeResp tree = .ok ts → ¬ ts = 200 →
        (resolveRefStage env headers owner repo parts).1
          = .ret ⟨[], { error := some "Invalid path in repository" }⟩) := by
  refine ⟨fun names rel => find_eq_head_filter _ names, ?_, ?_⟩
  · intro env headers owner repo parts tree hlen htree hst hne hsel hget hck
    rw [List.get?_eq_getElem?] at hget
    simp only [resolveRefStage]
    rw [if_pos ⟨hlen, htree⟩]
    simp [hst, hne, hsel, hget, hck, List.isEmpty_iff]
  · intro env headers owner repo parts tree ts hlen htree hst hne hsel hget hck hts
    rw [List.get?_eq_getElem?] at hget
    simp only [resolveRefStage]
    rw [if_pos ⟨hlen, htree⟩]
    simp [hst, hne, hsel, hget, hck, hts, List.isEmpty_iff]

/-- C7 witness: the invalid-path case at a concrete input. -/
theorem claim_C7_witness :
    (resolveRefStage envC7 [] "acme" "demo" ["acme", "demo", "tree", "nope"]).1
      = .ret ⟨[], { error := some "Invalid path in repository" }⟩ :=
  claim_C7_amended.2.2 envC7 [] "acme" "demo" ["acme", "demo", "tree", "nope"]
    "nope" 404 (by decide) (by decide) (by decide) (by decide) (by decide)
    (by decide) (by decide) (by decide)

/-- C7 counterexample: with branches `["release", "release/2.0"]` and
remaining path `release/2.0/src`, the longer branch `release/2.0` is a
prefix too, yet the resolver selects `release` (the first listed) and then
mis-splits the sub-path — refuting "selects the longest branch name". -/
theorem claim_C7_counterexample :
    selectBranch ["release", "release/2.0"] "release/2.0/src" = some "release"
    ∧ pyStartsWith "release/2.0/src" "release/2.0" = true
    ∧ "release/2.0" ∈ ["release", "release/2.0"]
    ∧ pyLen "release" < pyLen "release/2.0"
    ∧ selectBranchSpec ["release", "release/2.0"] "release/2.0/src"
        = some "release/2.0"
    ∧ (resolveRefStage envC7 [] "acme" "demo"
        ["acme", "demo", "tree", "release", "2.0", "src"]).1
        = .go (some "release") "2.0/src" := by decide

/-! ### C6 — rate-limit handling -/

/-- C6 (confirmed): on a 403 whose body mentions "rate limit exceeded",
the loop body sleeps `max(reset - now, 0) + 1` seconds and re-pushes the
SAME `(path, depth)` pair (depth unchanged); 403 is not in the generic
retry forcelist, so this never consumes one of the 5 adapter attempts. -/
theorem claim_C6_rate_limit (now : Int) (r : HttpResp) (p : String) (d : Nat)
    (stack : List (String × Nat)) (h : isRateLimited r = true) :
    loopBodyRL now r p d stack
      = (some (max (r.rateLimitReset.getD 0 - now) 0 + 1), (p, d) :: stack)
    ∧ (403 : Nat) ∉ retryStatusForcelist := by
  refine ⟨?_, by decide⟩
  simp [loopBodyRL, handleRateLimit, h]

/-- C6 witness: reset three seconds ahead of `now` gives a wait of four
seconds (≥ 3) and the identical stack item back on top. -/
theorem claim_C6_witness :
    isRateLimited ⟨403, "API rate limit exceeded for 1.2.3.4", some 1003⟩ = true
    ∧ (loopBodyRL 1000 ⟨403, "API rate limit exceeded for 1.2.3.4", some 1003⟩
        "src" 2 [("x", 1)]
        = (some (max ((1003 : Int) - 1000) 0 + 1), ("src", 2) :: [("x", 1)])
       ∧ (403 : Nat) ∉ retryStatusForcelist)
    ∧ (3 : Int) ≤ max ((1003 : Int) - 1000) 0 + 1 :=
  ⟨by decide,
    claim_C6_rate_limit 1000 ⟨403, "API rate limit exceeded for 1.2.3.4", some 1003⟩
      "src" 2 [("x", 1)] (by decide),
    by decide⟩

/-! ### C3 — file filtering and skip recording -/

/-- C3 (corrected): for a listed file, (a) when the pattern filter rejects
it the state is returned UNCHANGED — the file is recorded in neither
`files` nor `skippedFiles`; (b) when it passes the filter but its listed
size exceeds the limit it is appended to `skippedFiles` (with its repo
path and listed size) and not to `files`; (c) when it passes both checks
and the download succeeds within the live content-length limit it is
stored in `files` and `skippedFiles` is unchanged. -/
theorem claim_C3_amended (ctx : Ctx) (st : St) (it : Item)
    (h1 : it.itemType = "file") (h2 : it.path ≠ "") :
    (shouldIncludeFile ctx.includePatterns ctx.excludePatterns
        (relPathOf ctx it.path) it.name = false →
      processFile ctx st it = (st, Signal.ok))
    ∧ (∀ durl, shouldIncludeFile ctx.includePatterns ctx.excludePatterns
        (relPathOf ctx it.path) it.name = true →
      ctx.maxFileSize < it.size → it.downloadUrl = some durl →
      processFile ctx st it
        = ({ st with skipped := st.skipped ++ [(it.path, it.size)] }, Signal.ok))
    ∧ (∀ durl status contentLength text,
      shouldIncludeFile ctx.includePatterns ctx.excludePatterns
        (relPathOf ctx it.path) it.name = true →
      it.size ≤ ctx.maxFileSize → it.downloadUrl = some durl →
      ctx.env.download durl = .ok status contentLength text →
      contentLength ≤ ctx.maxFileSize → status = 200 →
      processFile ctx st it
        = ({ logReq st durl ctx.headers with
             files := dictSet st.files (relPathOf ctx it.path) text }, Signal.ok)) := by
  refine ⟨?_, ?_, ?_⟩
  · intro hskip
    simp [processFile, h1, h2, hskip]
  · intro durl hincl hsize hdurl
    simp [processFile, h1, h2, hincl, hsize]
  · intro durl status contentLength text hincl hsize hdurl hdl hlen hstatus
    subst hstatus
    simp [processFile, logReq, h1, h2, hincl, Nat.not_lt.mpr hsize, hdurl, hdl,
      Nat.not_lt.mpr hlen]

/-- C3 witness: the oversize branch at a concrete input. -/
theorem claim_C3_witness :
    processFile ctxOversize {} itemOversize
      = ({ skipped := [("big.bin", 2000)] }, Signal.ok) := by
  have h := (claim_C3_amended ctxOversize {} itemOversize rfl (by decide)).2.1
    "https://raw.test/big.bin" (by decide) (by decide) (by decide)
  simpa using h

/-- C3 counterexample: a crawled file under the size limit that fails the
include patterns ends up in NEITHER `files` NOR `skippedFiles` — the
claim's "otherwise it appears in stats.skippedFiles" is false for
pattern-excluded files. -/
theorem claim_C3_counterexample :
    (crawl envC3 "https://github.com/acme/demo" none 1000 false ["*.py"] []).result
      = .ok ⟨[], fullStats "api" [] [] none ["*.py"] []⟩
    ∧ itemsOf (envC3.contents "")
      = [{ path := "notes.txt", name := "notes.txt", itemType := "file",
           size := 5, downloadUrl := some "https://raw.test/notes.txt" }]
    ∧ shouldIncludeFile ["*.py"] [] "notes.txt" "notes.txt" = false
    ∧ (5 : Nat) ≤ 1000 := by decide

/-! ### C9 — encoded-size check on the content endpoint -/

/-- C9 (corrected): on the content-endpoint route the walker compares the
ESTIMATED DECODED size — `len(content) * 0.75`, modelled exactly as the
rational comparison `3·len > 4·max` — against the limit BEFORE decoding,
skipping with the estimated size `⌊3·len/4⌋` exactly when that estimate
exceeds the limit; the raw encoded length itself is never compared to the
limit.  When the estimate is within the limit the content is decoded and
stored; a failing decode at that point (line 355) is an uncaught exception
escaping the function, not a skip. -/
theorem claim_C9_amended (ctx : Ctx) (st : St) (it : Item) (c : String)
    (h1 : it.itemType = "file") (h2 : it.path ≠ "")
    (h3 : shouldIncludeFile ctx.includePatterns ctx.excludePatterns
        (relPathOf ctx it.path) it.name = true)
    (h4 : it.size ≤ ctx.maxFileSize)
    (h5 : it.downloadUrl = none)
    (h6 : ctx.env.contentGet it.url = .ok 200 (some "base64") (some c)) :
    (4 * ctx.maxFileSize < 3 * pyLen c →
      processFile ctx st it
        = ({ logReq st it.url ctx.headers with
             skipped := st.skipped ++ [(it.path, 3 * pyLen c / 4)] }, Signal.ok))
    ∧ (∀ decoded, 3 * pyLen c ≤ 4 * ctx.maxFileSize →
      ctx.env.b64decode c = .ok decoded →
      processFile ctx st it
        = ({ logReq st it.url ctx.headers with
             files := dictSet st.files (relPathOf ctx it.path)
               decoded }, Signal.ok))
    ∧ (∀ msg, 3 * pyLen c ≤ 4 * ctx.maxFileSize →
      ctx.env.b64decode c = .error msg →
      processFile ctx st it = (logReq st it.url ctx.headers, Signal.raise msg)) := by
  refine ⟨?_, ?_, ?_⟩
  · intro hbig
    simp [processFile, logReq, h1, h2, h3, Nat.not_lt.mpr h4, h5, h6, hbig]
  · intro decoded hsmall hdec
    simp [processFile, logReq, h1, h2, h3, Nat.not_lt.mpr h4, h5, h6,
      Nat.not_lt.mpr hsmall, hdec]
  · intro msg hsmall hdec
    simp [processFile, logReq, h1, h2, h3, Nat.not_lt.mpr h4, h5, h6,
      Nat.not_lt.mpr hsmall, hdec]

/-- C9 witness: 104 encoded characters against a 10-byte limit are
skipped with the estimated size `⌊104·3/4⌋ = 78` (without decoding). -/
theorem claim_C9_witness :
    processFile ctxC9small {} itemC9
      = ({ reqs := [⟨"u", []⟩], skipped := [("f.txt", 78)] }, Signal.ok) := by
  have h := (claim_C9_amended ctxC9small {} itemC9 encodedC9 rfl (by decide)
    (by decide) (by decide) rfl rfl).1 (by decide)
  simpa [encodedC9] using h

/-- C9 counterexample: with limit 100 and VALID base64 content of encoded
length 104 (a multiple of 4, so the decode at line 355 succeeds, yielding
78 NUL characters), the encoded length EXCEEDS the limit, yet the file is
decoded and stored (because `104 * 0.75 = 78 ≤ 100`) — refuting "skips
exactly when the encoded length exceeds the limit". -/
theorem claim_C9_counterexample :
    pyLen encodedC9 = 104
    ∧ ctxC9.maxFileSize = 100
    ∧ (100 : Nat) < 104
    ∧ envC9.b64decode encodedC9 = .ok decodedC9
    ∧ (processFile ctxC9 {} itemC9).1.files = [("f.txt", decodedC9)]
    ∧ (processFile ctxC9 {} itemC9).1.skipped = []
    ∧ (processFile ctxC9 {} itemC9).2 = Signal.ok := by decide

/-! ### C5 — termination and the depth bound -/

theorem entryCost_pos (ctx : Ctx) (b : Nat) (p : String) :
    0 < entryCost ctx b p := by
  cases b with
  | zero => simp [entryCost]
  | succ b =>
    have h1 : entryCost ctx (b + 1) p
        = 1 + ((pushList ctx (itemsOf (ctx.env.contents p))).map
            (fun q => entryCost ctx b q)).sum := rfl
    omega

theorem stackCost_cons (ctx : Ctx) (p : String) (d : Nat)
    (rest : List (String × Nat)) :
    stackCost ctx ((p, d) :: rest)
      = entryCost ctx (MAX_TRAVERSAL_DEPTH + 1 - d) p + stackCost ctx rest := by
  simp [stackCost]

theorem stackCost_append (ctx : Ctx) (a b : List (String × Nat)) :
    stackCost ctx (a ++ b) = stackCost ctx a + stackCost ctx b := by
  simp [stackCost]

theorem stackCost_reverse (ctx : Ctx) (a : List (String × Nat)) :
    stackCost ctx a.reverse = stackCost ctx a := by
  simp [stackCost, List.sum_reverse]

/-- One non-skipped successful iteration consumes exactly one unit of the
measure: the children's cost plus one equals the popped entry's cost. -/
theorem stackCost_pushes (ctx : Ctx) (p : String) (d : Nat) (items : List Item)
    (hd : ¬ MAX_TRAVERSAL_DEPTH < d) (hc : ctx.env.contents p = .ok items) :
    stackCost ctx ((pushList ctx items).map (fun q => (q, d + 1))) + 1
      = entryCost ctx (MAX_TRAVERSAL_DEPTH + 1 - d) p := by
  have hb : MAX_TRAVERSAL_DEPTH + 1 - d = (MAX_TRAVERSAL_DEPTH - d) + 1 := by
    simp only [MAX_TRAVERSAL_DEPTH] at hd ⊢
    omega
  rw [hb]
  simp only [entryCost, hc, itemsOf, stackCost, List.map_map, Function.comp_def,
    Nat.add_sub_add_right]
  omega

/-- Ghost fields untouched by the per-item file handler. -/
theorem processFile_ghost (ctx : Ctx) (st : St) (it : Item) :
    (processFile ctx st it).1.visited = st.visited
    ∧ (processFile ctx st it).1.pushed = st.pushed
    ∧ (processFile ctx st it).1.pops = st.pops := by
  unfold processFile logReq
  dsimp only
  repeat' split
  all_goals exact ⟨rfl, rfl, rfl⟩

theorem processFiles_ghost (ctx : Ctx) : ∀ (items : List Item) (st : St),
    (processFiles ctx st items).1.visited = st.visited
    ∧ (processFiles ctx st items).1.pushed = st.pushed
    ∧ (processFiles ctx st items).1.pops = st.pops := by
  intro items
  induction items with
  | nil => intro st; exact ⟨rfl, rfl, rfl⟩
  | cons it rest ih =>
    intro st
    obtain ⟨h1, h2, h3⟩ := processFile_ghost ctx st it
    simp only [processFiles]
    split
    · obtain ⟨g1, g2, g3⟩ := ih (processFile ctx st it).1
      exact ⟨g1.trans h1, g2.trans h2, g3.trans h3⟩
    · exact ⟨h1, h2, h3⟩
    · exact ⟨h1, h2, h3⟩


/-- Per-iteration state facts: the iteration counter advances by one,
every new visited entry respects the depth bound (only entries with
`d ≤ MAX_TRAVERSAL_DEPTH` are ever fetched), and every new pushed pair
records a child exactly one level deeper than its parent. -/
theorem loopIterNR_state (ctx : Ctx) (p : String) (d : Nat) (st : St) :
    (iterSt (loopIterNR ctx p d st)).pops = st.pops + 1
    ∧ (∀ v ∈ (iterSt (loopIterNR ctx p d st)).visited,
        v ∈ st.visited ∨ v.2 ≤ MAX_TRAVERSAL_DEPTH)
    ∧ (∀ pc ∈ (iterSt (loopIterNR ctx p d st)).pushed,
        pc ∈ st.pushed ∨ pc.2.2 = pc.1.2 + 1) := by
  unfold loopIterNR
  dsimp only
  by_cases hd50 : MAX_TRAVERSAL_DEPTH < d
  · rw [if_pos hd50]
    exact ⟨rfl, fun v hv => .inl hv, fun pc hpc => .inl hpc⟩
  · rw [if_neg hd50]
    have hvis : ∀ v ∈ st.visited ++ [(p, d)],
        v ∈ st.visited ∨ v.2 ≤ MAX_TRAVERSAL_DEPTH := by
      intro v hv
      rcases List.mem_append.mp hv with hv | hv
      · exact .inl hv
      · right
        simp at hv
        rw [hv]
        omega
    cases hc : ctx.env.contents p with
    | netErr msg => exact ⟨rfl, fun v hv => hvis v hv, fun pc hpc => .inl hpc⟩
    | http s => exact ⟨rfl, fun v hv => hvis v hv, fun pc hpc => .inl hpc⟩
    | badJson => exact ⟨rfl, fun v hv => hvis v hv, fun pc hpc => .inl hpc⟩
    | ok items =>
      dsimp only
      obtain ⟨pg1, pg2, pg3⟩ := processFiles_ghost ctx items
        (logReq { st with pops := st.pops + 1, visited := st.visited ++ [(p, d)] }
          (contentsUrl ctx p) ctx.headers)
      simp only [logReq] at pg1 pg2 pg3
      split
      · dsimp only [iterSt]
        refine ⟨by simp [logReq, pg3], ?_, ?_⟩
        · intro v hv
          simp only [logReq] at hv
          try dsimp only at hv
          rw [pg1] at hv
          exact hvis v hv
        · intro pc hpc
          simp only [logReq] at hpc
          try dsimp only at hpc
          rcases List.mem_append.mp hpc with hpc | hpc
          · rw [pg2] at hpc
            exact .inl hpc
          · right
            obtain ⟨q, hq, hpc2⟩ := List.mem_map.mp hpc
            rw [← hpc2]
      · dsimp only [iterSt]
        refine ⟨by simp [logReq, pg3], ?_, ?_⟩
        · intro v hv
          simp only [logReq] at hv
          rw [pg1] at hv
          exact hvis v hv
        · intro pc hpc
          simp only [logReq] at hpc
          rw [pg2] at hpc
          exact .inl hpc
      · dsimp only [iterSt]
        refine ⟨by simp [logReq, pg3], ?_, ?_⟩
        · intro v hv
          simp only [logReq] at hv
          rw [pg1] at hv
          exact hvis v hv
        · intro pc hpc
          simp only [logReq] at hpc
          rw [pg2] at hpc
          exact .inl hpc

theorem loopIterNR_next_cost (ctx : Ctx) (p : String) (d : Nat) (st : St)
    (st1 : St) (pushes : List (String × Nat))
    (h : loopIterNR ctx p d st = .next st1 pushes) :
    stackCost ctx pushes + 1 ≤ entryCost ctx (MAX_TRAVERSAL_DEPTH + 1 - d) p := by
  have hpos := entryCost_pos ctx (MAX_TRAVERSAL_DEPTH + 1 - d) p
  unfold loopIterNR at h
  dsimp only at h
  by_cases hd50 : MAX_TRAVERSAL_DEPTH < d
  · rw [if_pos hd50] at h
    simp only [IterOut.next.injEq] at h
    rw [← h.2]
    simp [stackCost]
    omega
  · rw [if_neg hd50] at h
    cases hc : ctx.env.contents p with
    | netErr msg => rw [hc] at h; simp at h
    | http s =>
      rw [hc] at h
      simp only [IterOut.next.injEq] at h
      rw [← h.2]
      simp [stackCost]
      omega
    | badJson =>
      rw [hc] at h
      simp only [IterOut.next.injEq] at h
      rw [← h.2]
      simp [stackCost]
      omega
    | ok items =>
      rw [hc] at h
      dsimp only at h
      split at h
      · simp only [IterOut.next.injEq] at h
        rw [← h.2]
        have := stackCost_pushes ctx p d items hd50 hc
        omega
      · simp at h
      · simp at h

/-- Main walker invariant: with budget at least `stackCost` the loop never
exhausts it (the Python `while stack:` loop terminates within `stackCost`
iterations), the iteration count is bounded by the initial measure, every
visited entry respects the depth bound, and every pushed pair is exactly
one level deeper than its parent. -/
theorem fetchLoopF_main (ctx : Ctx) : ∀ (fuel : Nat) (stack : List (String × Nat)) (st : St),
    stackCost ctx stack ≤ fuel →
    (fetchLoopF ctx fuel stack st).fuelOut = false
    ∧ (fetchLoopF ctx fuel stack st).st.pops ≤ st.pops + stackCost ctx stack
    ∧ ((∀ v ∈ st.visited, v.2 ≤ MAX_TRAVERSAL_DEPTH) →
        ∀ v ∈ (fetchLoopF ctx fuel stack st).st.visited, v.2 ≤ MAX_TRAVERSAL_DEPTH)
    ∧ ((∀ pc ∈ st.pushed, pc.2.2 = pc.1.2 + 1) →
        ∀ pc ∈ (fetchLoopF ctx fuel stack st).st.pushed, pc.2.2 = pc.1.2 + 1) := by
  intro fuel
  induction fuel with
  | zero =>
    intro stack st hfuel
    cases stack with
    | nil => exact ⟨rfl, by simp [fetchLoopF, stackCost], fun h => h, fun h => h⟩
    | cons hd rest =>
      exfalso
      have hpos := entryCost_pos ctx (MAX_TRAVERSAL_DEPTH + 1 - hd.2) hd.1
      rw [show hd = (hd.1, hd.2) from rfl, stackCost_cons] at hfuel
      omega
  | succ fuel ih =>
    intro stack st hfuel
    cases stack with
    | nil => exact ⟨rfl, by simp [fetchLoopF, stackCost], fun h => h, fun h => h⟩
    | cons hd rest =>
      obtain ⟨p, d⟩ := hd
      rw [stackCost_cons] at hfuel
      have hpos := entryCost_pos ctx (MAX_TRAVERSAL_DEPTH + 1 - d) p
      obtain ⟨s1, s2, s3⟩ := loopIterNR_state ctx p d st
      cases hiter : loopIterNR ctx p d st with
      | stop st1 sig =>
        rw [hiter] at s1 s2 s3
        simp only [iterSt] at s1 s2 s3
        refine ⟨?_, ?_, ?_, ?_⟩
        · simp [fetchLoopF, hiter]
        · simp only [fetchLoopF, hiter]
          rw [stackCost_cons]
          omega
        · intro hin v hv
          simp only [fetchLoopF, hiter] at hv
          rcases s2 v hv with h | h
          · exact hin v h
          · exact h
        · intro hin pc hpc
          simp only [fetchLoopF, hiter] at hpc
          rcases s3 pc hpc with h | h
          · exact hin pc h
          · exact h
      | next st1 pushes =>
        rw [hiter] at s1 s2 s3
        simp only [iterSt] at s1 s2 s3
        have hcost := loopIterNR_next_cost ctx p d st st1 pushes hiter
        have hrec : stackCost ctx (pushes.reverse ++ rest) ≤ fuel := by
          rw [stackCost_append, stackCost_reverse]
          omega
        obtain ⟨g1, g2, g3, g4⟩ := ih (pushes.reverse ++ rest) st1 hrec
        refine ⟨?_, ?_, ?_, ?_⟩
        · simp only [fetchLoopF, hiter]
          exact g1
        · simp only [fetchLoopF, hiter]
          rw [stackCost_cons]
          rw [stackCost_append, stackCost_reverse] at g2
          omega
        · intro hin
          simp only [fetchLoopF, hiter]
          refine g3 ?_
          intro v hv
          rcases s2 v hv with h | h
          · exact hin v h
          · exact h
        · intro hin
          simp only [fetchLoopF, hiter]
          refine g4 ?_
          intro pc hpc
          rcases s3 pc hpc with h | h
          · exact hin pc h
          · exact h

/-- C5 (confirmed): for every response oracle that returns finitely many
entries per directory (including cyclic or pathological trees, and with
rate-limited responses excluded by assumption), the stack-based walk
seeded with `(specific_path, 0)` terminates — its explicit iteration
budget `stackCost` is never exhausted and the iteration count is bounded
by it — no popped item with depth above `MAX_TRAVERSAL_DEPTH = 50` is ever
fetched, and every pushed child is exactly one level deeper than its
parent. -/
theorem claim_C5_depth_bound (ctx : Ctx) :
    (fetchContents ctx {}).fuelOut = false
    ∧ (fetchContents ctx {}).st.pops ≤ stackCost ctx [(ctx.specificPath, 0)]
    ∧ (∀ v ∈ (fetchContents ctx {}).st.visited, v.2 ≤ MAX_TRAVERSAL_DEPTH)
    ∧ (∀ pc ∈ (fetchContents ctx {}).st.pushed, pc.2.2 = pc.1.2 + 1) := by
  obtain ⟨g1, g2, g3, g4⟩ := fetchLoopF_main ctx
    (stackCost ctx [(ctx.specificPath, 0)]) [(ctx.specificPath, 0)] {} (le_refl _)
  exact ⟨g1, by simpa using g2, g3 (by simp), g4 (by simp)⟩

/-- A cyclic response (`a` lists itself as a subdirectory) still
terminates: 52 iterations, the 52nd skipping depth 51. -/
example :
    (fetchContents ctxCyclic {}).fuelOut = false
    ∧ (fetchContents ctxCyclic {}).st.pops = 52 := by decide

/-! ### C8 — traversal pruning of excluded directories -/

theorem listIsPre_iff (a b : List Char) : listIsPre a b = true ↔ a <+: b := by
  induction a generalizing b with
  | nil => simp [listIsPre]
  | cons x xs ih =>
    cases b with
    | nil => simp [listIsPre]
    | cons y ys =>
      simp [listIsPre, List.cons_prefix_cons, ih]

/-- If `a ++ [sl]` is a prefix of `b ++ sl :: n` and `sl` does not occur in
`n`, then `a` is `b` itself or `a ++ [sl]` already fits inside `b`. -/
theorem prefix_child (sl : Char) : ∀ (b a n : List Char), sl ∉ n →
    a ++ [sl] <+: b ++ sl :: n → a = b ∨ a ++ [sl] <+: b := by
  intro b
  induction b with
  | nil =>
    intro a n hn h
    cases a with
    | nil => exact .inl rfl
    | cons c a' =>
      exfalso
      simp only [List.nil_append, List.cons_append] at h
      obtain ⟨hc, h2⟩ := List.cons_prefix_cons.mp h
      exact hn (h2.sublist.mem (by simp))
  | cons c b' ih =>
    intro a n hn h
    cases a with
    | nil =>
      simp only [List.nil_append, List.cons_append] at h
      obtain ⟨hc, _⟩ := List.cons_prefix_cons.mp h
      right
      rw [hc]
      simp
    | cons d a' =>
      simp only [List.cons_append] at h
      obtain ⟨hd, h2⟩ := List.cons_prefix_cons.mp h
      rcases ih a' n hn h2 with h3 | h3
      · exact .inl (by rw [hd, h3])
      · right
        rw [hd]
        simpa [List.cons_prefix_cons] using h3

theorem string_data_append (s t : String) : (s ++ t).data = s.data ++ t.data :=
  String.data_append s t

/-- A slash-free direct child of the root is under `E` only if it IS `E`. -/
theorem child_under_root (name E : String) (hn : '/' ∉ name.data)
    (h : underEq name E = true) : name = E := by
  unfold underEq at h
  rcases Bool.or_eq_true .. ▸ h with h | h
  · exact String.ext (by simpa using congrArg String.data (eq_of_beq h))
  · exfalso
    rw [listIsPre_iff] at h
    rw [string_data_append] at h
    have : '/' ∈ name.data := h.sublist.mem (by simp [String.data])
    exact hn this
-- (the congrArg detour keeps the proof independent of the `==` instance)

/-- A slash-free direct child `p ++ "/" ++ name` is under `E` only if it
is `E` itself or its parent `p` is already under `E`. -/
theorem child_under (p name E : String) (hn : '/' ∉ name.data)
    (h : underEq (p ++ "/" ++ name) E = true) :
    p ++ "/" ++ name = E ∨ underEq p E = true := by
  unfold underEq at h
  rcases Bool.or_eq_true .. ▸ h with h | h
  · exact .inl (eq_of_beq h)
  · rw [listIsPre_iff, string_data_append, string_data_append,
      string_data_append] at h
    have hsl : ("/" : String).data = ['/'] := rfl
    rw [hsl] at h
    have h2 : E.data ++ ['/'] <+: p.data ++ '/' :: name.data := by
      simpa using h
    rcases prefix_child '/' p.data E.data name.data hn h2 with h3 | h3
    · right
      unfold underEq
      have : p = E := String.ext h3.symm
      simp [this]
    · right
      unfold underEq
      rw [Bool.or_eq_true, listIsPre_iff, string_data_append, hsl]
      exact .inr h3

theorem relPathOf_id (ctx : Ctx) (h : ctx.useRelativePaths = false)
    (q : String) : relPathOf ctx q = q := by
  simp [relPathOf, h]

theorem dictSet_mem : ∀ (m : List (String × String)) (k v : String)
    (kv : String × String), kv ∈ dictSet m k v → kv = (k, v) ∨ kv ∈ m := by
  intro m
  induction m with
  | nil => intro k v kv hkv; simpa [dictSet] using hkv
  | cons hd rest ih =>
    intro k v kv hkv
    unfold dictSet at hkv
    by_cases h : hd.1 = k
    · rw [show (hd.1, hd.2) = hd from rfl, if_pos h] at hkv
      rcases List.mem_cons.mp hkv with h2 | h2
      · exact .inl h2
      · exact .inr (List.mem_cons_of_mem hd h2)
    · rw [show (hd.1, hd.2) = hd from rfl, if_neg h] at hkv
      rcases List.mem_cons.mp hkv with h2 | h2
      · exact .inr (h2 ▸ List.mem_cons_self hd rest)
      · rcases ih k v kv h2 with h3 | h3
        · exact .inl h3
        · exact .inr (List.mem_cons_of_mem hd h3)

/-- New `files` entries come only from files that passed the pattern
filter, keyed by their computed relative path. -/
theorem processFile_files (ctx : Ctx) (st : St) (it : Item) :
    ∀ kv ∈ (processFile ctx st it).1.files,
      kv ∈ st.files
      ∨ (kv.1 = relPathOf ctx it.path
          ∧ shouldIncludeFile ctx.includePatterns ctx.excludePatterns
              (relPathOf ctx it.path) it.name = true) := by
  intro kv hkv
  unfold processFile logReq at hkv
  dsimp only at hkv
  repeat' split at hkv
  all_goals first
    | exact .inl hkv
    | (rcases dictSet_mem _ _ _ _ hkv with heq | hmem
       · right
         refine ⟨by rw [heq], ?_⟩
         simp only [Bool.not_eq_false] at *
         assumption
       · exact .inl hmem)

theorem processFiles_files (ctx : Ctx) : ∀ (items : List Item) (st : St)
    (kv : String × String), kv ∈ (processFiles ctx st items).1.files →
      kv ∈ st.files
      ∨ ∃ it ∈ items, kv.1 = relPathOf ctx it.path
          ∧ shouldIncludeFile ctx.includePatterns ctx.excludePatterns
              (relPathOf ctx it.path) it.name = true := by
  intro items
  induction items with
  | nil => intro st kv hkv; exact .inl hkv
  | cons it rest ih =>
    intro st kv hkv
    simp only [processFiles] at hkv
    split at hkv
    · rcases ih (processFile ctx st it).1 kv hkv with h | ⟨it2, hit2, h⟩
      · rcases processFile_files ctx st it kv h with h2 | h2
        · exact .inl h2
        · exact .inr ⟨it, List.mem_cons_self it rest, h2⟩
      · exact .inr ⟨it2, List.mem_cons_of_mem it hit2, h⟩
    · rcases processFile_files ctx st it kv hkv with h | h
      · exact .inl h
      · exact .inr ⟨it, List.mem_cons_self it rest, h⟩
    · rcases processFile_files ctx st it kv hkv with h | h
      · exact .inl h
      · exact .inr ⟨it, List.mem_cons_self it rest, h⟩

theorem pushList_mem (ctx : Ctx) (items : List Item) (q : String)
    (hq : q ∈ pushList ctx items) :
    ∃ it ∈ items, it.itemType = "dir" ∧ dirExcluded ctx it.path = false
      ∧ q = it.path := by
  unfold pushList at hq
  obtain ⟨it, hit, hq⟩ := List.mem_filterMap.mp hq
  refine ⟨it, hit, ?_⟩
  by_cases h1 : it.path = ""
  · simp [h1] at hq
  · rw [if_neg h1] at hq
    by_cases h2 : it.itemType = "dir" ∧ dirExcluded ctx it.path = false
    · rw [if_pos h2] at hq
      simp at hq
      exact ⟨h2.1, h2.2, hq.symm⟩
    · rw [if_neg h2] at hq
      simp at hq

/-- An exclude-matched path always trips the directory pruning check. -/
theorem dirExcluded_of_match (ctx : Ctx) (E : String)
    (hE : ctx.excludePatterns.any (fun pat => fnmatchB E pat) = true) :
    dirExcluded ctx E = true := by
  unfold dirExcluded
  rw [hE]
  obtain ⟨pat, hpat, _⟩ := List.any_eq_true.mp hE
  cases hexc : ctx.excludePatterns with
  | nil => rw [hexc] at hpat; simp at hpat
  | cons a l => simp [hexc]

/-- An exclude-matched path never passes the file filter. -/
theorem shouldInclude_excluded (inc exc : List String) (E name : String)
    (hE : exc.any (fun pat => fnmatchB E pat) = true) :
    shouldIncludeFile inc exc E name = false := by
  by_contra h
  have h2 := (shouldIncludeFile_iff inc exc E name).mp (by
    cases hb : shouldIncludeFile inc exc E name
    · exact absurd hb h
    · rfl)
  obtain ⟨pat, hpat, hm⟩ := List.any_eq_true.mp hE
  have := h2.2 pat hpat
  rw [this] at hm
  exact Bool.false_ne_true hm

/-- A direct child of a clean directory lies under `E` only if it IS `E`. -/
theorem childOf_underEq (it : Item) (p E : String) (hch : childOf it p)
    (hp : underEq p E = false) (h : underEq it.path E = true) :
    it.path = E := by
  obtain ⟨hpath, hn⟩ := hch
  by_cases hp0 : p = ""
  · rw [hp0] at hpath
    simp at hpath
    rw [hpath] at h ⊢
    exact child_under_root it.name E hn h
  · rw [if_neg hp0] at hpath
    rw [hpath] at h ⊢
    rcases child_under p it.name E hn h with h2 | h2
    · exact h2
    · rw [h2] at hp
      exact absurd hp (by simp)

/-- Per-iteration pruning: under a well-formed oracle, starting from a
directory that is not at or below the excluded path `E`, an iteration
leaves `E` untouched: visits stay at the popped path, new file keys and
new pushed children are never at or below `E`, and nothing at or below `E`
is pushed. -/
theorem loopIterNR_prune (ctx : Ctx) (E : String)
    (hwf : ∀ p it, it ∈ itemsOf (ctx.env.contents p) → childOf it p)
    (hE : ctx.excludePatterns.any (fun pat => fnmatchB E pat) = true)
    (hrel : ctx.useRelativePaths = false)
    (p : String) (d : Nat) (st : St) (hp : underEq p E = false) :
    (∀ v ∈ (iterSt (loopIterNR ctx p d st)).visited, v ∈ st.visited ∨ v.1 = p)
    ∧ (∀ kv ∈ (iterSt (loopIterNR ctx p d st)).files,
        kv ∈ st.files ∨ underEq kv.1 E = false)
    ∧ (∀ pc ∈ (iterSt (loopIterNR ctx p d st)).pushed,
        pc ∈ st.pushed ∨ underEq pc.2.1 E = false)
    ∧ (∀ st1 pushes, loopIterNR ctx p d st = .next st1 pushes →
        ∀ s ∈ pushes, underEq s.1 E = false) := by
  have hkey : ∀ it, it ∈ itemsOf (ctx.env.contents p) →
      shouldIncludeFile ctx.includePatterns ctx.excludePatterns
        (relPathOf ctx it.path) it.name = true →
      underEq (relPathOf ctx it.path) E = false := by
    intro it hit hinc
    rw [relPathOf_id ctx hrel] at hinc ⊢
    cases hu : underEq it.path E with
    | false => rfl
    | true =>
      exfalso
      have hEq := childOf_underEq it p E (hwf p it hit) hp hu
      rw [hEq] at hinc
      rw [shouldInclude_excluded _ _ E it.name hE] at hinc
      exact Bool.false_ne_true hinc
  have hpush : ∀ it, it ∈ itemsOf (ctx.env.contents p) →
      it.itemType = "dir" → dirExcluded ctx it.path = false →
      underEq it.path E = false := by
    intro it hit _ hdx
    cases hu : underEq it.path E with
    | false => rfl
    | true =>
      exfalso
      have hEq := childOf_underEq it p E (hwf p it hit) hp hu
      rw [hEq, dirExcluded_of_match ctx E hE] at hdx
      simp at hdx
  unfold loopIterNR
  dsimp only
  by_cases hd50 : MAX_TRAVERSAL_DEPTH < d
  · rw [if_pos hd50]
    refine ⟨fun v hv => .inl hv, fun kv hkv => .inl hkv, fun pc hpc => .inl hpc, ?_⟩
    intro st1 pushes hnext s hs
    simp only [IterOut.next.injEq] at hnext
    rw [← hnext.2] at hs
    simp at hs
  · rw [if_neg hd50]
    have hvis : ∀ v ∈ st.visited ++ [(p, d)], v ∈ st.visited ∨ v.1 = p := by
      intro v hv
      rcases List.mem_append.mp hv with hv | hv
      · exact .inl hv
      · right
        simp at hv
        rw [hv]
    cases hc : ctx.env.contents p with
    | netErr msg =>
      refine ⟨fun v hv => hvis v hv, fun kv hkv => .inl hkv,
        fun pc hpc => .inl hpc, ?_⟩
      intro st1 pushes hnext
      simp at hnext
    | http s =>
      refine ⟨fun v hv => hvis v hv, fun kv hkv => .inl hkv,
        fun pc hpc => .inl hpc, ?_⟩
      intro st1 pushes hnext s2 hs
      simp only [IterOut.next.injEq] at hnext
      rw [← hnext.2] at hs
      simp at hs
    | badJson =>
      refine ⟨fun v hv => hvis v hv, fun kv hkv => .inl hkv,
        fun pc hpc => .inl hpc, ?_⟩
      intro st1 pushes hnext s2 hs
      simp only [IterOut.next.injEq] at hnext
      rw [← hnext.2] at hs
      simp at hs
    | ok items =>
      dsimp only
      have hitems : ∀ it, it ∈ items → it ∈ itemsOf (ctx.env.contents p) := by
        intro it hit
        rw [hc]
        exact hit
      obtain ⟨pg1, pg2, pg3⟩ := processFiles_ghost ctx items
        (logReq { st with pops := st.pops + 1, visited := st.visited ++ [(p, d)] }
          (contentsUrl ctx p) ctx.headers)
      simp only [logReq] at pg1 pg2 pg3
      have hfiles : ∀ kv ∈ (processFiles ctx
          (logReq { st with pops := st.pops + 1, visited := st.visited ++ [(p, d)] }
            (contentsUrl ctx p) ctx.headers) items).1.files,
          kv ∈ st.files ∨ underEq kv.1 E = false := by
        intro kv hkv
        rcases processFiles_files ctx items _ kv hkv with h | ⟨it, hit, h1, h2⟩
        · simp only [logReq] at h
          exact .inl h
        · right
          rw [h1]
          exact hkey it (hitems it hit) h2
      have hpushes : ∀ q ∈ pushList ctx items, underEq q E = false := by
        intro q hq
        obtain ⟨it, hit, hdir, hdx, hqe⟩ := pushList_mem ctx items q hq
        rw [hqe]
        exact hpush it (hitems it hit) hdir hdx
      split
      · dsimp only [iterSt]
        refine ⟨?_, ?_, ?_, ?_⟩
        · intro v hv
          simp only [logReq] at hv
          try dsimp only at hv
          rw [pg1] at hv
          exact hvis v hv
        · intro kv hkv
          simp only [logReq] at hkv
          try dsimp only at hkv
          exact hfiles kv hkv
        · intro pc hpc
          simp only [logReq] at hpc
          try dsimp only at hpc
          rcases List.mem_append.mp hpc with hpc | hpc
          · rw [pg2] at hpc
            exact .inl hpc
          · right
            obtain ⟨q, hq, hpc2⟩ := List.mem_map.mp hpc
            rw [← hpc2]
            exact hpushes q hq
        · intro st1 pushes hnext s2 hs
          simp only [IterOut.next.injEq] at hnext
          rw [← hnext.2] at hs
          obtain ⟨q, hq, hs2⟩ := List.mem_map.mp hs
          rw [← hs2]
          exact hpushes q hq
      · dsimp only [iterSt]
        refine ⟨?_, ?_, ?_, ?_⟩
        · intro v hv
          simp only [logReq] at hv
          rw [pg1] at hv
          exact hvis v hv
        · intro kv hkv
          simp only [logReq] at hkv
          exact hfiles kv hkv
        · intro pc hpc
          simp only [logReq] at hpc
          rw [pg2] at hpc
          exact .inl hpc
        · intro st1 pushes hnext
          simp at hnext
      · dsimp only [iterSt]
        refine ⟨?_, ?_, ?_, ?_⟩
        · intro v hv
          simp only [logReq] at hv
          rw [pg1] at hv
          exact hvis v hv
        · intro kv hkv
          simp only [logReq] at hkv
          exact hfiles kv hkv
        · intro pc hpc
          simp only [logReq] at hpc
          rw [pg2] at hpc
          exact .inl hpc
        · intro st1 pushes hnext
          simp at hnext

/-- Pruning invariant over the whole walk. -/
theorem fetchLoopF_prune (ctx : Ctx) (E : String)
    (hwf : ∀ p it, it ∈ itemsOf (ctx.env.contents p) → childOf it p)
    (hE : ctx.excludePatterns.any (fun pat => fnmatchB E pat) = true)
    (hrel : ctx.useRelativePaths = false) :
    ∀ (fuel : Nat) (stack : List (String × Nat)) (st : St),
    (∀ s ∈ stack, underEq s.1 E = false) →
    (∀ v ∈ st.visited, underEq v.1 E = false) →
    (∀ kv ∈ st.files, underEq kv.1 E = false) →
    (∀ pc ∈ st.pushed, underEq pc.2.1 E = false) →
    (∀ v ∈ (fetchLoopF ctx fuel stack st).st.visited, underEq v.1 E = false)
    ∧ (∀ kv ∈ (fetchLoopF ctx fuel stack st).st.files, underEq kv.1 E = false)
    ∧ (∀ pc ∈ (fetchLoopF ctx fuel stack st).st.pushed, underEq pc.2.1 E = false) := by
  intro fuel
  induction fuel with
  | zero =>
    intro stack st hstack hvis hfiles hpush
    cases stack with
    | nil => exact ⟨hvis, hfiles, hpush⟩
    | cons hd rest => exact ⟨hvis, hfiles, hpush⟩
  | succ fuel ih =>
    intro stack st hstack hvis hfiles hpush
    cases stack with
    | nil => exact ⟨hvis, hfiles, hpush⟩
    | cons hd rest =>
      obtain ⟨p, d⟩ := hd
      have hp : underEq p E = false := hstack (p, d) (List.mem_cons_self _ _)
      obtain ⟨i1, i2, i3, i4⟩ := loopIterNR_prune ctx E hwf hE hrel p d st hp
      cases hiter : loopIterNR ctx p d st with
      | stop st1 sig =>
        rw [hiter] at i1 i2 i3
        simp only [iterSt] at i1 i2 i3
        refine ⟨?_, ?_, ?_⟩ <;> intro x hx <;> simp only [fetchLoopF, hiter] at hx
        · rcases i1 x hx with h | h
          · exact hvis x h
          · rw [h]; exact hp
        · rcases i2 x hx with h | h
          · exact hfiles x h
          · exact h
        · rcases i3 x hx with h | h
          · exact hpush x h
          · exact h
      | next st1 pushes =>
        rw [hiter] at i1 i2 i3
        simp only [iterSt] at i1 i2 i3
        have hstack2 : ∀ s ∈ pushes.reverse ++ rest, underEq s.1 E = false := by
          intro s hs
          rcases List.mem_append.mp hs with hs | hs
          · exact i4 st1 pushes hiter s (List.mem_reverse.mp hs)
          · exact hstack s (List.mem_cons_of_mem _ hs)
        have hvis2 : ∀ v ∈ st1.visited, underEq v.1 E = false := by
          intro v hv
          rcases i1 v hv with h | h
          · exact hvis v h
          · rw [h]; exact hp
        have hfiles2 : ∀ kv ∈ st1.files, underEq kv.1 E = false := by
          intro kv hkv
          rcases i2 kv hkv with h | h
          · exact hfiles kv h
          · exact h
        have hpush2 : ∀ pc ∈ st1.pushed, underEq pc.2.1 E = false := by
          intro pc hpc
          rcases i3 pc hpc with h | h
          · exact hpush pc h
          · exact h
        obtain ⟨g1, g2, g3⟩ := ih (pushes.reverse ++ rest) st1 hstack2 hvis2 hfiles2 hpush2
        refine ⟨?_, ?_, ?_⟩ <;> intro x hx <;> simp only [fetchLoopF, hiter] at hx
        · exact g1 x hx
        · exact g2 x hx
        · exact g3 x hx

/-- C8 (confirmed): under a well-formed contents oracle (every listed item
is a slash-free direct child of the requested directory), absolute paths
(`use_relative_paths = False`), and an excluded path `E` that does not
contain the walk's starting path: the walker never issues a contents
request for `E` or anything beneath it, never pushes `E` or anything
beneath it onto the stack, and no file at or beneath `E` appears in
`files`. -/
theorem claim_C8_prune (ctx : Ctx) (E : String)
    (hwf : ∀ p it, it ∈ itemsOf (ctx.env.contents p) → childOf it p)
    (hE : ctx.excludePatterns.any (fun pat => fnmatchB E pat) = true)
    (hrel : ctx.useRelativePaths = false)
    (hp0 : underEq ctx.specificPath E = false) :
    (∀ v ∈ (fetchContents ctx {}).st.visited, underEq v.1 E = false)
    ∧ (∀ kv ∈ (fetchContents ctx {}).st.files, underEq kv.1 E = false)
    ∧ (∀ pc ∈ (fetchContents ctx {}).st.pushed, underEq pc.2.1 E = false) := by
  refine fetchLoopF_prune ctx E hwf hE hrel _ [(ctx.specificPath, 0)] {} ?_ ?_ ?_ ?_
  · intro s hs
    simp at hs
    rw [hs]
    exact hp0
  · intro v hv; simp at hv
  · intro kv hkv; simp at hkv
  · intro pc hpc; simp at hpc

/-- C8 witness: the concrete two-directory repository with `docs`
excluded — `docs` is never visited, nothing under it is pushed, and no
file under it is downloaded. -/
theorem claim_C8_witness :
    (ctxC8.excludePatterns.any (fun pat => fnmatchB "docs" pat) = true)
    ∧ ((∀ v ∈ (fetchContents ctxC8 {}).st.visited, underEq v.1 "docs" = false)
      ∧ (∀ kv ∈ (fetchContents ctxC8 {}).st.files, underEq kv.1 "docs" = false)
      ∧ (∀ pc ∈ (fetchContents ctxC8 {}).st.pushed, underEq pc.2.1 "docs" = false)) := by
  constructor
  · decide
  · refine claim_C8_prune ctxC8 "docs" ?_ (by decide) (by decide) (by decide)
    intro p it hit
    by_cases h0 : p = ""
    · rw [h0] at hit
      have : itemsOf (ctxC8.env.contents "") =
          [{ path := "docs", name := "docs", itemType := "dir" },
           { path := "src", name := "src", itemType := "dir" }] := by decide
      rw [this] at hit
      rcases List.mem_cons.mp hit with h | h
      · rw [h, h0]; constructor <;> decide
      · simp at h
        rw [h, h0]; constructor <;> decide
    · by_cases h1 : p = "src"
      · rw [h1] at hit
        have : itemsOf (ctxC8.env.contents "src") =
            [{ path := "src/a.py", name := "a.py", itemType := "file", size := 4,
               downloadUrl := some "https://raw.test/src/a.py" }] := by decide
        rw [this] at hit
        simp at hit
        rw [hit, h1]; constructor <;> decide
      · by_cases h2 : p = "docs"
        · rw [h2] at hit
          have : itemsOf (ctxC8.env.contents "docs") =
              [{ path := "docs/b.py", name := "b.py", itemType := "file", size := 4,
                 downloadUrl := some "https://raw.test/docs/b.py" }] := by decide
          rw [this] at hit
          simp at hit
          rw [hit, h2]; constructor <;> decide
        · exfalso
          have : itemsOf (ctxC8.env.contents p) = [] := by
            unfold ctxC8 envC8
            dsimp only
            rw [if_neg h0, if_neg h1, if_neg h2]
            rfl
          rw [this] at hit
          simp at hit

/-! ### Stage result-shape lemmas (for C1 and C2) -/

theorem fallbackStage_ok (env : Env) (sp : String) (ur : Bool) (m : Nat)
    (inc exc : List String) (st : St) :
    ∃ r, (fallbackStage env sp ur m inc exc st).result = .ok r := by
  unfold fallbackStage
  split
  · exact ⟨_, rfl⟩
  · split
    · exact ⟨_, rfl⟩
    · exact ⟨_, rfl⟩

theorem fallbackStage_source (env : Env) (sp : String) (ur : Bool) (m : Nat)
    (inc exc : List String) (st : St) (r : FetchResult)
    (hr : (fallbackStage env sp ur m inc exc st).result = .ok r)
    (he : r.stats.error = none) : r.stats.source = some "git_clone" := by
  unfold fallbackStage at hr
  split at hr
  · simp only [Except.ok.injEq] at hr
    rw [← hr] at he
    simp at he
  · split at hr
    · simp only [Except.ok.injEq] at hr
      rw [← hr] at he
      simp at he
    · simp only [Except.ok.injEq] at hr
      rw [← hr]
      rfl

theorem runFetch_source (ctx : Ctx) (st : St) (r : FetchResult)
    (hr : (runFetch ctx st).result = .ok r) (he : r.stats.error = none) :
    r.stats.source = some "api" ∨ r.stats.source = some "git_clone" := by
  unfold runFetch at hr
  dsimp only at hr
  cases hs : (fetchContents ctx st).sig with
  | raise msg =>
    rw [hs] at hr
    dsimp only at hr
    simp at hr
  | netErr msg =>
    rw [hs] at hr
    dsimp only at hr
    exact .inr (fallbackStage_source _ _ _ _ _ _ _ r hr he)
  | ok =>
    rw [hs] at hr
    dsimp only at hr
    simp only [Except.ok.injEq] at hr
    rw [← hr]
    exact .inl rfl

theorem apiStage_source (env : Env) (headers : List (String × String))
    (owner repo : String) (ref : Option String) (sp : String) (ur : Bool)
    (m : Nat) (inc exc : List String) (st0 : St) (r : FetchResult)
    (hr : (apiStage env headers owner repo ref sp ur m inc exc st0).result = .ok r)
    (he : r.stats.error = none) :
    r.stats.source = some "api" ∨ r.stats.source = some "git_clone" := by
  unfold apiStage at hr
  dsimp only at hr
  cases hm : env.meta with
  | netErr msg =>
    rw [hm] at hr
    exact .inr (fallbackStage_source _ _ _ _ _ _ _ r hr he)
  | ok status db =>
    rw [hm] at hr
    dsimp only at hr
    by_cases h1 : strTruthy (if status = 200 then db else none) = true
    · rw [if_pos h1] at hr
      cases ht : env.tree with
      | netErr msg =>
        rw [ht] at hr
        exact .inr (fallbackStage_source _ _ _ _ _ _ _ r hr he)
      | ok tstatus blobCount =>
        rw [ht] at hr
        dsimp only at hr
        by_cases h2 : tstatus = 200 ∧ 1000 < blobCount
        · rw [if_pos h2] at hr
          exact .inr (fallbackStage_source _ _ _ _ _ _ _ r hr he)
        · rw [if_neg h2] at hr
          exact runFetch_source _ _ r hr he
    · rw [if_neg h1] at hr
      exact runFetch_source _ _ r hr he

theorem sshPath_ok (env : Env) (m : Nat) (inc exc : List String) :
    ∃ r, (sshPath env m inc exc).result = .ok r := by
  unfold sshPath
  split
  · exact ⟨_, rfl⟩
  · split
    · exact ⟨_, rfl⟩
    · exact ⟨_, rfl⟩

theorem sshPath_source (env : Env) (m : Nat) (inc exc : List String)
    (r : FetchResult) (hr : (sshPath env m inc exc).result = .ok r)
    (he : r.stats.error = none) : r.stats.source = some "ssh_clone" := by
  unfold sshPath at hr
  split at hr
  · simp only [Except.ok.injEq] at hr
    rw [← hr] at he
    simp at he
  · split at hr
    · simp only [Except.ok.injEq] at hr
      rw [← hr] at he
      simp at he
    · simp only [Except.ok.injEq] at hr
      rw [← hr]
      rfl

/-- Every structured resolver rejection (`.ret`) carries one of the two
error strings of lines 227 and 248. -/
theorem resolveRefStage_cases (env : Env) (headers : List (String × String))
    (owner repo : String) (parts : List String) :
    ∀ r0, (resolveRefStage env headers owner repo parts).1 = .ret r0 →
        r0.stats.error = some "Failed to fetch branches"
        ∨ r0.stats.error = some "Invalid path in repository" := by
  unfold resolveRefStage
  dsimp only
  repeat' split
  all_goals intro x h <;>
    simp only [ResolveOut.ret.injEq] at h <;>
    first
      | (rw [← h]; exact .inl rfl)
      | (rw [← h]; exact .inr rfl)
      | simp at h

/-! ### C1 — exceptions versus structured failures -/

/-- C1 (corrected): a source URL whose path has fewer than two segments
makes `crawl_github_files` RAISE `ValueError("Invalid GitHub URL: ...")`
instead of returning a structured result.  The failure modes the spec
lists as structured really are structured: both resolver-level rejections
(`.ret` — empty branch listing, invalid tree path) surface as `.ok`
results carrying `stats.error`, and the SSH path never throws.  But
"configuration errors never raise" is false more broadly: besides this
`ValueError` (and an `IndexError` for a bare `.../tree` URL with no
fourth path segment), network failures of the branch-list and tree-check
requests — issued OUTSIDE the `try` at line 368 — and the decode errors
of line 355 all escape the function uncaught (`Except.error` outcomes of
`crawl` through `ResolveOut.raiseErr` and `Signal.raise`). -/
theorem claim_C1_amended (env : Env) (url : String) (token : Option String)
    (m : Nat) (ur : Bool) (inc exc : List String) :
    (isSshUrl (normalizeRepoUrl url) = false →
      (pathParts (normalizeRepoUrl url)).length < 2 →
      (crawl env url token m ur inc exc).result
        = .error ("Invalid GitHub URL: " ++ normalizeRepoUrl url))
    ∧ (∀ r0 rs, isSshUrl (normalizeRepoUrl url) = false →
        ¬ (pathParts (normalizeRepoUrl url)).length < 2 →
        resolveRefStage env (baseHeaders (effectiveToken token env.sessionToken))
          ((pathParts (normalizeRepoUrl url)).getD 0 "")
          ((pathParts (normalizeRepoUrl url)).getD 1 "")
          (pathParts (normalizeRepoUrl url)) = (.ret r0, rs) →
        (crawl env url token m ur inc exc).result = .ok r0
        ∧ r0.stats.error ≠ none)
    ∧ (isSshUrl (normalizeRepoUrl url) = true →
        ∃ r, (crawl env url token m ur inc exc).result = .ok r) := by
  refine ⟨?_, ?_, ?_⟩
  · intro hssh hshort
    unfold crawl
    dsimp only
    rw [if_neg (by rw [hssh]; simp), if_pos hshort]
  · intro r0 rs hssh hshort hres
    unfold crawl
    dsimp only
    rw [if_neg (by rw [hssh]; simp), if_neg hshort, hres]
    refine ⟨rfl, ?_⟩
    rcases resolveRefStage_cases env _ _ _ _ r0 (by rw [hres]) with h | h <;>
      rw [h] <;> simp
  · intro hssh
    unfold crawl
    dsimp only
    rw [if_pos hssh]
    exact sshPath_ok env m inc exc

/-- C1 counterexample: at the concrete malformed URL the call raises (the
model returns `Except.error`, i.e. the `ValueError` escapes), rather than
returning a structured result. -/
theorem claim_C1_counterexample :
    (crawl {} "https://github.com/foo" none 1000 false [] []).result
      = .error "Invalid GitHub URL: https://github.com/foo" := by decide

/-- C1 witness for the amended claim at a concrete input. -/
theorem claim_C1_witness :
    isSshUrl (normalizeRepoUrl "https://github.com/owneronly") = false
    ∧ (pathParts (normalizeRepoUrl "https://github.com/owneronly")).length < 2
    ∧ (crawl {} "https://github.com/owneronly" none 1000 false [] []).result
        = .error ("Invalid GitHub URL: "
            ++ normalizeRepoUrl "https://github.com/owneronly") :=
  ⟨by decide, by decide,
    (claim_C1_amended {} "https://github.com/owneronly" none 1000 false [] []).1
      (by decide) (by decide)⟩

/-! ### C2 — stats shape and the source tag -/

/-- C2 (corrected): whenever a crawl returns WITHOUT `stats.error`, its
`stats.source` is one of exactly `api`, `git_clone`, `ssh_clone`.  (On
failure returns the claim is false: several return a stats dictionary with
no `source` key at all, and the no-GitPython API-failure path tags
`source = "api_partial"` — see the counterexample.) -/
theorem claim_C2_amended (env : Env) (url : String) (token : Option String)
    (m : Nat) (ur : Bool) (inc exc : List String) (r : FetchResult)
    (hr : (crawl env url token m ur inc exc).result = .ok r)
    (he : r.stats.error = none) :
    r.stats.source = some "api" ∨ r.stats.source = some "git_clone"
      ∨ r.stats.source = some "ssh_clone" := by
  unfold crawl at hr
  dsimp only at hr
  by_cases hssh : isSshUrl (normalizeRepoUrl url) = true
  · rw [if_pos hssh] at hr
    exact .inr (.inr (sshPath_source env m inc exc r hr he))
  · rw [if_neg hssh] at hr
    by_cases hshort : (pathParts (normalizeRepoUrl url)).length < 2
    · rw [if_pos hshort] at hr
      simp at hr
    · rw [if_neg hshort] at hr
      cases hres : (resolveRefStage env
          (baseHeaders (effectiveToken token env.sessionToken))
          ((pathParts (normalizeRepoUrl url)).getD 0 "")
          ((pathParts (normalizeRepoUrl url)).getD 1 "")
          (pathParts (normalizeRepoUrl url))) with
      | mk out rs =>
        rw [hres] at hr
        cases out with
        | ret r0 =>
          dsimp only at hr
          simp only [Except.ok.injEq] at hr
          rcases resolveRefStage_cases env _ _ _ _ r0 (by rw [hres]) with h | h <;>
            rw [hr] at h <;> rw [h] at he <;> simp at he
        | raiseErr m0 => simp at hr
        | go ref sp =>
          dsimp only at hr
          rcases apiStage_source env _ _ _ ref sp ur m inc exc { reqs := rs } r hr he
            with h | h
          · exact .inl h
          · exact .inr (.inl h)

/-- C2 witness: the healthy API crawl returns no error and source `api`. -/
theorem claim_C2_witness :
    (crawl envHappy "https://github.com/acme/demo" none 1000 false [] []).result
      = .ok happyResult
    ∧ (happyResult.stats.source = some "api"
        ∨ happyResult.stats.source = some "git_clone"
        ∨ happyResult.stats.source = some "ssh_clone") :=
  ⟨by decide,
    claim_C2_amended envHappy "https://github.com/acme/demo" none 1000 false [] []
      happyResult (by decide) (by decide)⟩

/-- C2 counterexample: two total-failure returns violate the claim — the
no-GitPython SSH return has NO `source` key at all, and the no-GitPython
API-failure return tags `source = "api_partial"`, which is outside the
claimed value set. -/
theorem claim_C2_counterexample :
    (crawl { gitAvailable := false } "git@github.com:acme/demo.git" none 1000
        false [] []).result = .ok resC2
    ∧ resC2.stats.error ≠ none
    ∧ resC2.stats.source = none
    ∧ (crawl envPartial "https://github.com/acme/demo" none 1000
        false [] []).result = .ok resC2partial
    ∧ resC2partial.stats.source = some "api_partial"
    ∧ resC2partial.stats.source ≠ some "api"
    ∧ resC2partial.stats.source ≠ some "git_clone"
    ∧ resC2partial.stats.source ≠ some "ssh_clone" := by decide

/-! ### C10 — the Authorization header -/

/-- C10 (code bug): with a token present every API request is supposed to
carry `Authorization: token <token>`, and all of them do — EXCEPT the
repository-metadata pre-check (source line 371), which calls
`session.get` without the `headers` argument.  The concrete trace below
shows the metadata request with an empty header list while the tree
listing, the contents listing and the file download all carry the
header. -/
theorem claim_C10_bug :
    strTruthy (some "SECRET") = true
    ∧ (crawl envHappy "https://github.com/acme/demo" (some "SECRET") 1000
        false [] []).trace.reqs
      = [⟨"https://api.github.com/repos/acme/demo", []⟩,
         ⟨"https://api.github.com/repos/acme/demo/git/trees/main?recursive=1",
           [("Accept", "application/vnd.github.v3+json"),
            ("Authorization", "token SECRET")]⟩,
         ⟨"https://api.github.com/repos/acme/demo/contents/",
           [("Accept", "application/vnd.github.v3+json"),
            ("Authorization", "token SECRET")]⟩,
         ⟨"https://raw.test/a.py",
           [("Accept", "application/vnd.github.v3+json"),
            ("Authorization", "token SECRET")]⟩] := by decide

/-- C4 witness: the amended filter semantics at a concrete input. -/
theorem claim_C4_witness :
    shouldIncludeFile ["*.py"] ["docs/*"] "src/a.py" "a.py" = true ↔
      ((["*.py"] = ([] : List String)
          ∨ ∃ pat ∈ ["*.py"], fnmatchB "a.py" pat = true)
        ∧ ∀ pat ∈ ["docs/*"], fnmatchB "src/a.py" pat = false) :=
  claim_C4_amended ["*.py"] ["docs/*"] "src/a.py" "a.py"

/-- C5 witness: the walker bounds instantiated at the cyclic context. -/
theorem claim_C5_witness :
    (fetchContents ctxCyclic {}).fuelOut = false
    ∧ (fetchContents ctxCyclic {}).st.pops
        ≤ stackCost ctxCyclic [(ctxCyclic.specificPath, 0)]
    ∧ (∀ v ∈ (fetchContents ctxCyclic {}).st.visited, v.2 ≤ MAX_TRAVERSAL_DEPTH)
    ∧ (∀ pc ∈ (fetchContents ctxCyclic {}).st.pushed, pc.2.2 = pc.1.2 + 1) :=
  claim_C5_depth_bound ctxCyclic
